import Mathlib

/-!
# Verification of the Screenshare_udp media pipeline core

Shallow embedding of the Rust sources of `Screenshare_udp`
(`src-tauri/src/broadcast/rtp.rs`, `encoder.rs`, `capture.rs`, `discovery.rs`,
`src-tauri/src/commands.rs`) and proofs about them.

Conventions of the embedding:
* Bytes and machine integers are `Nat`; Rust `as u8` / `as u32` truncating
  casts are written `% 256` / `% 2 ^ 32`, `u16::wrapping_add` is `% 65536`,
  and bit operations use `Nat`'s `&&&`, `|||`, `<<<`, `>>>`.
* Byte buffers are `List Nat`; the indexing `data[i]` of the Rust sources is
  `data.getD i 0` (all theorems only exercise in-bounds accesses).
* `f32` arithmetic is modelled exactly as rationals together with IEEE-754
  round-to-nearest-even at 24 bits of precision (normal range only; the
  values reached by the program stay far inside the normal range).
* Imperative loops become structural recursions (with an explicit fuel that
  is always sufficient for the entry points) or folds; mutable struct state
  is passed explicitly.
-/

namespace Screenshare

/-- Slice `data[a..b]` of a byte buffer. -/
def listSlice (data : List Nat) (a b : Nat) : List Nat :=
  (data.drop a).take (b - a)

/-- `bool as u8` of Rust. -/
def bite (b : Bool) : Nat :=
  if b then 1 else 0

/-! ## RTP header (rtp.rs, `RtpHeader`) -/

/-- `RtpHeader` (rtp.rs).  All numeric fields are `Nat`s carrying the values
of the `u8`/`u16`/`u32` fields. -/
structure RtpHeader where
  version : Nat
  padding : Bool
  extension : Bool
  csrc_count : Nat
  marker : Bool
  payload_type : Nat
  sequence : Nat
  timestamp : Nat
  ssrc : Nat
  deriving Repr, DecidableEq

/-- `RtpHeader::new` (rtp.rs). -/
def RtpHeader.new (ssrc : Nat) : RtpHeader :=
  { version := 2, padding := false, extension := false, csrc_count := 0,
    marker := false, payload_type := 96, sequence := 0, timestamp := 0,
    ssrc := ssrc }

/-- `RtpHeader::serialize` (rtp.rs): the 12 header bytes.  Each byte is the
Rust `u8` value (`as u8` = `% 256`). -/
def RtpHeader.serialize (h : RtpHeader) : List Nat :=
  [ ((h.version <<< 6) ||| (bite h.padding <<< 5) ||| (bite h.extension <<< 4)
      ||| (h.csrc_count &&& 15)) % 256,
    ((bite h.marker <<< 7) ||| (h.payload_type &&& 127)) % 256,
    (h.sequence >>> 8) % 256, h.sequence % 256,
    (h.timestamp >>> 24) % 256, (h.timestamp >>> 16) % 256,
    (h.timestamp >>> 8) % 256, h.timestamp % 256,
    (h.ssrc >>> 24) % 256, (h.ssrc >>> 16) % 256,
    (h.ssrc >>> 8) % 256, h.ssrc % 256 ]

/-- `RtpHeader::parse` (rtp.rs). -/
def RtpHeader.parse (data : List Nat) : Option RtpHeader :=
  if data.length < 12 then none
  else
    let b := fun i => data.getD i 0
    let version := (b 0 >>> 6) &&& 3
    if version ≠ 2 then none
    else
      some { version := version,
             padding := (b 0 >>> 5) &&& 1 = 1,
             extension := (b 0 >>> 4) &&& 1 = 1,
             csrc_count := b 0 &&& 15,
             marker := (b 1 >>> 7) &&& 1 = 1,
             payload_type := b 1 &&& 127,
             sequence := (b 2 <<< 8) ||| b 3,
             timestamp := (b 4 <<< 24) ||| (b 5 <<< 16) ||| (b 6 <<< 8) ||| b 7,
             ssrc := (b 8 <<< 24) ||| (b 9 <<< 16) ||| (b 10 <<< 8) ||| b 11 }

/-! ## NAL unit types (rtp.rs, `NalType`) -/

/-- `NalType` (rtp.rs). -/
inductive NalType where
  | slice | sliceA | sliceB | sliceC | idr | sei | sps | pps | aud
  | fuA | fuB
  | unknown (n : Nat)
  deriving Repr, DecidableEq

/-- `impl From<u8> for NalType` (rtp.rs): dispatch on `val & 0x1F`. -/
def NalType.fromByte (val : Nat) : NalType :=
  match val &&& 31 with
  | 1 => NalType.slice
  | 2 => NalType.sliceA
  | 3 => NalType.sliceB
  | 4 => NalType.sliceC
  | 5 => NalType.idr
  | 6 => NalType.sei
  | 7 => NalType.sps
  | 8 => NalType.pps
  | 9 => NalType.aud
  | 28 => NalType.fuA
  | 29 => NalType.fuB
  | n => NalType.unknown n

/-! ## RTP packetizer (rtp.rs, `RtpPacketizer`) -/

/-- `RtpPacketizer` state.  `new()` seeds `ssrc` from the wall clock; here the
ssrc is an arbitrary `Nat` parameter of the theorems. -/
structure RtpPacketizer where
  ssrc : Nat
  sequence : Nat
  timestamp : Nat
  clock_rate : Nat
  deriving Repr, DecidableEq

/-- `start`/`nal_start` recomputation of `find_nal_units` (rtp.rs lines
211-218 and 234-240): position of the first byte after the start code that
begins at `start` (or `start` itself if no start code is there). -/
def nalStartAt (data : List Nat) (start : Nat) : Nat :=
  if data.getD start 0 = 0 ∧ data.getD (start+1) 0 = 0 ∧ data.getD (start+2) 0 = 1 then
    start + 3
  else if start + 4 ≤ data.length ∧ data.getD start 0 = 0 ∧ data.getD (start+1) 0 = 0
      ∧ data.getD (start+2) 0 = 0 ∧ data.getD (start+3) 0 = 1 then
    start + 4
  else
    start

/-- The "save previous NAL" block of `find_nal_units` (rtp.rs lines 209-223),
executed when a start code has been found at `i` with previous code at
`start`. -/
def pushPrev (data : List Nat) (start i : Nat) (units : List (List Nat)) :
    List (List Nat) :=
  if start < i ∧ i > start then
    if start + 3 < i then
      let prev_start := nalStartAt data start
      if prev_start < i then units ++ [listSlice data prev_start i] else units
    else units
  else units

/-- The "last NAL unit" block of `find_nal_units` (rtp.rs lines 233-244). -/
def lastNal (data : List Nat) (start : Nat) : List (List Nat) :=
  if start < data.length then
    let nal_start := nalStartAt data start
    if nal_start < data.length then [data.drop nal_start] else []
  else []

/-- The `while` loop of `RtpPacketizer::find_nal_units` (rtp.rs lines
197-230).  `fuel` only forces termination: every entry through
`find_nal_units` supplies more fuel than loop iterations (the index grows by
at least one per iteration), so the fuel-exhausted branch is unreachable
there. -/
def fnuLoop (data : List Nat) : Nat → Nat → Nat → List (List Nat) → List (List Nat)
  | 0, _, start, units => units ++ lastNal data start
  | fuel + 1, i, start, units =>
    if i < data.length then
      if i + 3 < data.length ∧ data.getD i 0 = 0 ∧ data.getD (i+1) 0 = 0 then
        if data.getD (i+2) 0 = 1 then
          fnuLoop data fuel (i + 3) i (pushPrev data start i units)
        else if i + 4 < data.length ∧ data.getD (i+2) 0 = 0 ∧ data.getD (i+3) 0 = 1 then
          fnuLoop data fuel (i + 4) i (pushPrev data start i units)
        else
          fnuLoop data fuel (i + 1) start units
      else
        fnuLoop data fuel (i + 1) start units
    else units ++ lastNal data start

/-- `RtpPacketizer::find_nal_units` (rtp.rs lines 192-247). -/
def find_nal_units (data : List Nat) : List (List Nat) :=
  fnuLoop data (data.length + 1) 0 0 []

/-- `MAX_RTP_PAYLOAD` (rtp.rs). -/
def MAX_RTP_PAYLOAD : Nat := 1400

/-- Helper for `rustChunks`; the first argument is fuel (the list length
suffices, since each step drops at least one element). -/
def rustChunksAux (n : Nat) : Nat → List α → List (List α)
  | _, [] => []
  | 0, _ :: _ => []
  | fuel + 1, x :: xs =>
    if n = 0 then []
    else (x :: xs).take n :: rustChunksAux n fuel ((x :: xs).drop n)

/-- Rust `slice::chunks n` (for `n > 0`; `rustChunks 0 l = []` is never
used). -/
def rustChunks (n : Nat) (l : List α) : List (List α) :=
  rustChunksAux n l.length l

/-- `RtpPacketizer::packetize_nal` (rtp.rs lines 249-307).  Returns the
packets and the updated packetizer (the sequence counter advances by
`u16::wrapping_add`). -/
def packetize_nal (p : RtpPacketizer) (nal : List Nat) (is_last_nal : Bool) :
    List (List Nat) × RtpPacketizer :=
  if nal = [] then ([], p)
  else if nal.length ≤ MAX_RTP_PAYLOAD then
    let header := { RtpHeader.new p.ssrc with
                    sequence := p.sequence, timestamp := p.timestamp,
                    marker := is_last_nal }
    ([header.serialize ++ nal], { p with sequence := (p.sequence + 1) % 65536 })
  else
    let nal_header := nal.getD 0 0
    let nal_type := nal_header &&& 31
    let nri := nal_header &&& 96
    let fu_indicator := nri ||| 28
    let payload := nal.drop 1
    let chunks := rustChunks (MAX_RTP_PAYLOAD - 2) payload
    chunks.enum.foldl
      (fun acc ic =>
        let i := ic.1
        let chunk := ic.2
        let is_first := i = 0
        let is_last := i = chunks.length - 1
        let fu_header := (bite is_first <<< 7) ||| (bite is_last <<< 6) ||| nal_type
        let header := { RtpHeader.new p.ssrc with
                        sequence := acc.2.sequence, timestamp := acc.2.timestamp,
                        marker := is_last && is_last_nal }
        (acc.1 ++ [header.serialize ++ [fu_indicator, fu_header] ++ chunk],
         { acc.2 with sequence := (acc.2.sequence + 1) % 65536 }))
      ([], p)

/-- `RtpPacketizer::packetize` (rtp.rs lines 174-190). -/
def packetize (p : RtpPacketizer) (h264_data : List Nat) (frame_time_ms : Nat) :
    List (List Nat) × RtpPacketizer :=
  let p := { p with timestamp := frame_time_ms * p.clock_rate / 1000 % 2 ^ 32 }
  let nal_units := find_nal_units h264_data
  nal_units.enum.foldl
    (fun acc inal =>
      let is_last := inal.1 = nal_units.length - 1
      let r := packetize_nal acc.2 inal.2 is_last
      (acc.1 ++ r.1, r.2))
    ([], p)

/-! ## RTP depacketizer (rtp.rs, `RtpDepacketizer`) -/

/-- `RtpDepacketizer` state (rtp.rs). -/
structure RtpDepacketizer where
  expected_sequence : Option Nat
  current_frame : List Nat
  current_timestamp : Nat
  fu_buffer : List Nat
  fu_started : Bool
  deriving Repr, DecidableEq

/-- `RtpDepacketizer::new` (rtp.rs). -/
def RtpDepacketizer.new : RtpDepacketizer :=
  { expected_sequence := none, current_frame := [], current_timestamp := 0,
    fu_buffer := [], fu_started := false }

/-- `RtpDepacketizer::depacketize` (rtp.rs lines 331-410).  Returns the
emitted access unit (if any) together with the updated state. -/
def depacketize (s : RtpDepacketizer) (rtp_data : List Nat) :
    Option (List Nat) × RtpDepacketizer :=
  match RtpHeader.parse rtp_data with
  | none => (none, s)
  | some header =>
    if header.payload_type ≠ 96 then (none, s)
    else
      let payload := rtp_data.drop 12
      if payload = [] then (none, s)
      else
        -- sequence-gap check: on a gap, pending FU-A reassembly is dropped
        let s :=
          match s.expected_sequence with
          | some expected =>
            if header.sequence ≠ expected then
              { s with fu_buffer := [], fu_started := false }
            else s
          | none => s
        let s := { s with expected_sequence := some ((header.sequence + 1) % 65536) }
        -- new frame on timestamp change
        let s :=
          if header.timestamp ≠ s.current_timestamp then
            { s with current_frame := [], current_timestamp := header.timestamp }
          else s
        -- emission decision at the end of the function (rtp.rs lines 403-409)
        let finish := fun (s : RtpDepacketizer) =>
          if header.marker ∧ s.current_frame ≠ [] then
            (some s.current_frame, { s with current_frame := [] })
          else ((none : Option (List Nat)), s)
        match NalType.fromByte (payload.getD 0 0) with
        | NalType.fuA =>
          if payload.length < 2 then (none, s)  -- early return, state keeps the updates so far
          else
            let fu_indicator := payload.getD 0 0
            let fu_header := payload.getD 1 0
            let is_start := (fu_header >>> 7) &&& 1 = 1
            let is_end := (fu_header >>> 6) &&& 1 = 1
            let nal_type := fu_header &&& 31
            let s :=
              if is_start then
                { s with fu_buffer := [(fu_indicator &&& 224) ||| nal_type],
                         fu_started := true }
              else s
            let s :=
              if s.fu_started then
                { s with fu_buffer := s.fu_buffer ++ payload.drop 2 }
              else s
            let s :=
              if is_end ∧ s.fu_started then
                { s with current_frame := s.current_frame ++ [0, 0, 0, 1] ++ s.fu_buffer,
                         fu_buffer := [], fu_started := false }
              else s
            finish s
        | _ =>
          finish { s with current_frame := s.current_frame ++ [0, 0, 0, 1] ++ payload }

/-- Feed a list of RTP packets to the depacketizer in order, collecting the
per-packet results. -/
def runDep (s : RtpDepacketizer) : List (List Nat) → List (Option (List Nat)) × RtpDepacketizer
  | [] => ([], s)
  | p :: ps =>
    let r := depacketize s p
    let rest := runDep r.2 ps
    (r.1 :: rest.1, rest.2)

/-! ## H.264 encoder keyframe detection (encoder.rs, `H264Encoder::is_keyframe`) -/

/-- `H264Encoder::is_keyframe` (encoder.rs lines 137-158): scan the indices
`0 .. data.len().saturating_sub(5)` for a start code followed by a NAL of
type 5 or 7 (early `return true` becomes `List.any`). -/
def is_keyframe (data : List Nat) : Bool :=
  (List.range (data.length - 5)).any fun i =>
    if data.getD i 0 = 0 ∧ data.getD (i+1) 0 = 0 then
      let offset_found :=
        if data.getD (i+2) 0 = 1 then (i + 3, true)
        else if data.getD (i+2) 0 = 0 ∧ i + 3 < data.length ∧ data.getD (i+3) 0 = 1 then
          (i + 4, true)
        else (0, false)
      if offset_found.2 ∧ offset_found.1 < data.length then
        let nal_type := data.getD offset_found.1 0 &&& 31
        decide (nal_type = 5 ∨ nal_type = 7)
      else false
    else false

/-! ## RGB → YUV 4:2:0 conversion (encoder.rs and capture.rs) -/

/-- Arithmetic shift right on `i32` (Rust `>>`): floor division by `2 ^ k`. -/
def asr (x : Int) (k : Nat) : Int :=
  Int.fdiv x (2 ^ k)

/-- `((66*r + 129*g + 25*b + 128) >> 8) + 16` (encoder.rs line 109,
capture.rs line 115). -/
def yValue (r g b : Int) : Int :=
  asr (66 * r + 129 * g + 25 * b + 128) 8 + 16

/-- `((-38*r - 74*g + 112*b + 128) >> 8) + 128` (encoder.rs line 123,
capture.rs line 120). -/
def uValue (r g b : Int) : Int :=
  asr (-38 * r - 74 * g + 112 * b + 128) 8 + 128

/-- `((112*r - 94*g - 18*b + 128) >> 8) + 128` (encoder.rs line 124,
capture.rs line 121). -/
def vValue (r g b : Int) : Int :=
  asr (112 * r - 94 * g - 18 * b + 128) 8 + 128

/-- `x.clamp(0, 255) as u8`. -/
def clampU8 (x : Int) : Nat :=
  (max 0 (min x 255)).toNat

/-- The three YUV planes, modelled as index → byte maps (the Rust planes are
disjoint mutable slices of the preallocated `yuv_buffer`, initially zero). -/
structure Planes where
  y : Nat → Nat
  u : Nat → Nat
  v : Nat → Nat

/-- All-zero initial planes (`vec![0u8; ...]`). -/
def Planes.init : Planes :=
  { y := fun _ => 0, u := fun _ => 0, v := fun _ => 0 }

/-- `(0..n).step_by(2)`. -/
def stepBy2 (n : Nat) : List Nat :=
  (List.range n).filter fun k => k % 2 = 0

/-- The `(dy, dx)` iteration order of the inner 2×2 loop of
`rgb_to_yuv420_fast` (encoder.rs lines 95-115). -/
def blockPixels : List (Nat × Nat) :=
  [(0, 0), (0, 1), (1, 0), (1, 1)]

/-- Accumulator of the 2×2 block loop: the Y plane written so far plus the
running `sum_r`, `sum_g`, `sum_b`. -/
structure BlockAcc where
  yp : Nat → Nat
  sum_r : Int
  sum_g : Int
  sum_b : Int

/-- One pixel of the inner 2×2 loop of `rgb_to_yuv420_fast` (encoder.rs
lines 95-115): the Y write and the RGB sum accumulation, with the
out-of-frame and out-of-buffer guards. -/
def fastPixelStep (rgb : List Nat) (width height j i : Nat) (acc : BlockAcc)
    (d : Nat × Nat) : BlockAcc :=
  let y_pos := j + d.1
  let x_pos := i + d.2
  if y_pos ≥ height ∨ x_pos ≥ width then acc
  else
    let rgb_idx := (y_pos * width + x_pos) * 3
    if rgb_idx + 2 ≥ rgb.length then acc
    else
      let r : Int := rgb.getD rgb_idx 0
      let g : Int := rgb.getD (rgb_idx + 1) 0
      let b : Int := rgb.getD (rgb_idx + 2) 0
      { yp := Function.update acc.yp (y_pos * width + x_pos)
                (clampU8 (yValue r g b)),
        sum_r := acc.sum_r + r, sum_g := acc.sum_g + g,
        sum_b := acc.sum_b + b }

/-- The inner 2×2 pixel loop of `rgb_to_yuv420_fast` (encoder.rs lines
91-115): writes the Y samples of block `(j, i)` and accumulates the RGB
sums. -/
def yuvFastBlock (rgb : List Nat) (width height j i : Nat) (yp : Nat → Nat) :
    BlockAcc :=
  blockPixels.foldl (fastPixelStep rgb width height j i)
    { yp := yp, sum_r := 0, sum_g := 0, sum_b := 0 }

/-- One 2×2 block of `rgb_to_yuv420_fast` (encoder.rs lines 90-131): the
inner pixel loop followed by the averaged U/V write. -/
def fastBlockStep (rgb : List Nat) (width height j : Nat) (pl : Planes)
    (i : Nat) : Planes :=
  let acc := yuvFastBlock rgb width height j i pl.y
  let avg_r := asr acc.sum_r 2
  let avg_g := asr acc.sum_g 2
  let avg_b := asr acc.sum_b 2
  let u := uValue avg_r avg_g avg_b
  let v := vValue avg_r avg_g avg_b
  let uv_idx := j / 2 * (width / 2) + i / 2
  if uv_idx < width * height / 4 then
    { y := acc.yp,
      u := Function.update pl.u uv_idx (clampU8 u),
      v := Function.update pl.v uv_idx (clampU8 v) }
  else
    { pl with y := acc.yp }

/-- One row of blocks of `rgb_to_yuv420_fast`. -/
def fastRowStep (rgb : List Nat) (width height : Nat) (pl : Planes) (j : Nat) :
    Planes :=
  (stepBy2 width).foldl (fastBlockStep rgb width height j) pl

/-- `H264Encoder::rgb_to_yuv420_fast` (encoder.rs lines 77-133).
`u_plane.len()` is `width * height / 4` (the split of the preallocated
buffer), and `uv_width` is `width / 2`. -/
def rgb_to_yuv420_fast (rgb : List Nat) (width height : Nat) : Planes :=
  (stepBy2 height).foldl (fastRowStep rgb width height) Planes.init

/-- One pixel of `rgb_to_yuv420` (capture.rs lines 104-128): the Y write
plus, on even rows and columns, the top-left-sampled U/V write. -/
def capPixelStep (rgb : List Nat) (width height j : Nat) (pl : Planes)
    (i : Nat) : Planes :=
  let rgb_idx := (j * width + i) * 3
  if rgb_idx + 2 ≥ rgb.length then pl
  else
    let r : Int := rgb.getD rgb_idx 0
    let g : Int := rgb.getD (rgb_idx + 1) 0
    let b : Int := rgb.getD (rgb_idx + 2) 0
    let pl := { pl with
                y := Function.update pl.y (j * width + i)
                       (clampU8 (yValue r g b)) }
    if j % 2 = 0 ∧ i % 2 = 0 then
      let uv_idx := j / 2 * (width / 2) + i / 2
      if uv_idx < width * height / 4 then
        { pl with
          u := Function.update pl.u uv_idx (clampU8 (uValue r g b)),
          v := Function.update pl.v uv_idx (clampU8 (vValue r g b)) }
      else pl
    else pl

/-- One row of `rgb_to_yuv420`. -/
def capRowStep (rgb : List Nat) (width height : Nat) (pl : Planes) (j : Nat) :
    Planes :=
  (List.range width).foldl (capPixelStep rgb width height j) pl

/-- `rgb_to_yuv420` (capture.rs lines 96-132): per-pixel loop, U/V sampled
from the top-left pixel of each 2×2 block. -/
def rgb_to_yuv420 (rgb : List Nat) (width height : Nat) : Planes :=
  (List.range height).foldl (capRowStep rgb width height) Planes.init

/-- Red channel of pixel `(x, y)`. -/
def rAt (rgb : List Nat) (w x y : Nat) : Int := rgb.getD ((y * w + x) * 3) 0

/-- Green channel of pixel `(x, y)`. -/
def gAt (rgb : List Nat) (w x y : Nat) : Int := rgb.getD ((y * w + x) * 3 + 1) 0

/-- Blue channel of pixel `(x, y)`. -/
def bAt (rgb : List Nat) (w x y : Nat) : Int := rgb.getD ((y * w + x) * 3 + 2) 0

/-- The Y sample the conversions write for pixel `(x, y)`. -/
def yPix (rgb : List Nat) (w x y : Nat) : Nat :=
  clampU8 (yValue (rAt rgb w x y) (gAt rgb w x y) (bAt rgb w x y))

/-- Sum of the red channel over the 2×2 block at `(j, i)` (loop order). -/
def sumR (rgb : List Nat) (w j i : Nat) : Int :=
  rAt rgb w i j + rAt rgb w (i+1) j + rAt rgb w i (j+1) + rAt rgb w (i+1) (j+1)

/-- Sum of the green channel over the 2×2 block at `(j, i)`. -/
def sumG (rgb : List Nat) (w j i : Nat) : Int :=
  gAt rgb w i j + gAt rgb w (i+1) j + gAt rgb w i (j+1) + gAt rgb w (i+1) (j+1)

/-- Sum of the blue channel over the 2×2 block at `(j, i)`. -/
def sumB (rgb : List Nat) (w j i : Nat) : Int :=
  bAt rgb w i j + bAt rgb w (i+1) j + bAt rgb w i (j+1) + bAt rgb w (i+1) (j+1)

/-- The U sample of the encoder's conversion for the block at `(j, i)`: the
BT.601 U formula applied to the block mean (`sum >> 2`). -/
def uBlockMean (rgb : List Nat) (w j i : Nat) : Nat :=
  clampU8 (uValue (asr (sumR rgb w j i) 2) (asr (sumG rgb w j i) 2)
    (asr (sumB rgb w j i) 2))

/-- The V sample of the encoder's conversion for the block at `(j, i)`. -/
def vBlockMean (rgb : List Nat) (w j i : Nat) : Nat :=
  clampU8 (vValue (asr (sumR rgb w j i) 2) (asr (sumG rgb w j i) 2)
    (asr (sumB rgb w j i) 2))

/-- The U sample of the capture helper for the block at `(j, i)`: the U
formula applied to the block's top-left pixel. -/
def uTopLeft (rgb : List Nat) (w j i : Nat) : Nat :=
  clampU8 (uValue (rAt rgb w i j) (gAt rgb w i j) (bAt rgb w i j))

/-- The V sample of the capture helper for the block at `(j, i)`. -/
def vTopLeft (rgb : List Nat) (w j i : Nat) : Nat :=
  clampU8 (vValue (rAt rgb w i j) (gAt rgb w i j) (bAt rgb w i j))

/-! ## Student receive loop (commands.rs, `run_student`) -/

/-- The keyframe scan of `run_student` (commands.rs lines 334-337):
`h264_frame.windows(5).any(...)`, looking for an IDR (type 5) NAL after a
4-byte or 3-byte start code. -/
def studentIsKeyframe (frame : List Nat) : Bool :=
  (List.range (frame.length - 4)).any fun i =>
    decide ((frame.getD i 0 = 0 ∧ frame.getD (i+1) 0 = 0 ∧ frame.getD (i+2) 0 = 0
        ∧ frame.getD (i+3) 0 = 1 ∧ frame.getD (i+4) 0 &&& 31 = 5)
      ∨ (frame.getD i 0 = 0 ∧ frame.getD (i+1) 0 = 0 ∧ frame.getD (i+2) 0 = 1
        ∧ frame.getD (i+3) 0 &&& 31 = 5))

/-- The waiting-for-keyframe decision of `run_student` (commands.rs lines
339-347) for one assembled access unit: given the `waiting_for_keyframe`
flag, returns the new flag and whether the unit is passed to the decoder
(`false` = `continue`, i.e. the unit is discarded). -/
def runStudentStep (waiting : Bool) (frame : List Nat) : Bool × Bool :=
  if waiting then
    if studentIsKeyframe frame then (false, true) else (true, false)
  else (false, true)

/-! ## Exact `f32` model and `calculate_bitrate` (commands.rs)

Rationals are represented unnormalized as `num / den` with `den > 0`, so
that every operation reduces in the kernel; `f32` arithmetic is exact
rational arithmetic followed by IEEE-754 binary32 round to nearest, ties to
even (normal range; every value reached by `calculate_bitrate` is normal
and finite). -/

/-- Unnormalized rational: `num / den`, `den > 0` by construction. -/
structure QD where
  num : Int
  den : Int
  deriving Repr, DecidableEq

/-- The rational value of a `QD`. -/
def QD.val (a : QD) : ℚ := (a.num : ℚ) / (a.den : ℚ)

/-- Floor logarithm base 2 (fuel-based; `fuel ≥ n` suffices). -/
def log2fuel : Nat → Nat → Nat
  | 0, _ => 0
  | fuel + 1, n => if n ≥ 2 then log2fuel fuel (n / 2) + 1 else 0

/-- `2 ^ e` as a positive unnormalized rational. -/
def pow2 (e : Int) : QD :=
  if 0 ≤ e then ⟨2 ^ e.toNat, 1⟩ else ⟨1, 2 ^ (-e).toNat⟩

/-- `a < b` on unnormalized rationals (cross multiplication; dens > 0). -/
def qlt (a b : QD) : Bool :=
  a.num * b.den < b.num * a.den

/-- `a ≤ b` on unnormalized rationals. -/
def qle (a b : QD) : Bool :=
  a.num * b.den ≤ b.num * a.den

/-- Round `a / b` (both positive) to the nearest natural, ties to even. -/
def rneNat (a b : Nat) : Nat :=
  let q := a / b
  let r := a % b
  if 2 * r < b then q
  else if b < 2 * r then q + 1
  else if q % 2 = 0 then q else q + 1

/-- `⌊log₂ (n / d)⌋` for positive naturals `n`, `d`. -/
def qdlog2 (n d : Nat) : Int :=
  let e0 : Int := (log2fuel n n : Int) - (log2fuel d d : Int)
  if qle (pow2 (e0 + 1)) ⟨n, d⟩ then e0 + 1
  else if qlt (⟨n, d⟩ : QD) (pow2 e0) then e0 - 1
  else e0

/-- IEEE-754 binary32 round to nearest, ties to even. -/
def f32round (a : QD) : QD :=
  if a.num = 0 then ⟨0, 1⟩
  else
    let s : Int := if a.num < 0 then -1 else 1
    let n := a.num.natAbs
    let d := a.den.natAbs
    let g : Int := qdlog2 n d - 23
    let grid := pow2 g
    -- |a| / 2^g  =  (n * grid.den) / (d * grid.num)
    let m := rneNat (n * grid.den.toNat) (d * grid.num.toNat)
    if 0 ≤ g then ⟨s * (m * 2 ^ g.toNat : Nat), 1⟩
    else ⟨s * m, 2 ^ (-g).toNat⟩

/-- `f32` multiplication. -/
def fmul (a b : QD) : QD := f32round ⟨a.num * b.num, a.den * b.den⟩

/-- `f32` division (both operands positive in all uses). -/
def fdiv (a b : QD) : QD :=
  if b.num < 0 then f32round ⟨-(a.num * b.den), a.den * -b.num⟩
  else f32round ⟨a.num * b.den, a.den * b.num⟩

/-- `f32` subtraction. -/
def fsub (a b : QD) : QD := f32round ⟨a.num * b.den - b.num * a.den, a.den * b.den⟩

/-- `u32 as f32`. -/
def fofNat (n : Nat) : QD := f32round ⟨n, 1⟩

/-- The `f32` value of the literal `0.3`. -/
def f32_0_3 : QD := f32round ⟨3, 10⟩

/-- Rust `f32::max` (no NaNs arise here). -/
def qmax (a b : QD) : QD := if qlt a b then b else a

/-- `f32 as u32` (round toward zero, saturating; the argument is never
negative or out of range in `calculate_bitrate`). -/
def f32toU32 (a : QD) : Nat :=
  if a.num < 0 then 0 else min (a.num.toNat / a.den.toNat) (2 ^ 32 - 1)

/-- `calculate_bitrate` (commands.rs lines 412-424).  `width * height` is a
`u32` product (wrapping in release builds, hence `% 2 ^ 32`); all floating
arithmetic is `f32`. -/
def calculate_bitrate (width height fps quality : Nat) : Nat :=
  let pixels := width * height % 2 ^ 32
  let base : Nat :=
    if pixels ≤ 921600 then 1500
    else if pixels ≤ 2073600 then 3000
    else 5000
  let fps_factor := fdiv (fofNat fps) (fofNat 30)
  let quality_factor := fsub (fofNat 1) (fdiv (fsub (fofNat quality) (fofNat 20)) (fofNat 60))
  f32toU32 (fmul (fmul (fofNat base) fps_factor) (qmax quality_factor f32_0_3))

/-- Spec-side C8 formula read as exact real arithmetic with a mathematical
(unwrapped) pixel count, following the claim wording: `base * (fps/30) *
max(0.3, 1 - (quality-20)/60)` truncated to an integer. -/
def specBitrateMath (width height fps quality : Nat) : Int :=
  let pixels := width * height
  let base : Int :=
    if pixels ≤ 921600 then 1500
    else if pixels ≤ 2073600 then 3000
    else 5000
  -- value = base * (fps/30) * max(3/10, 1 - (quality-20)/60), exactly
  let q : QD := ⟨quality, 1⟩
  let factor := qmax ⟨3, 10⟩ ⟨60 - (q.num - 20), 60⟩
  -- base * fps * factor / 30, floored
  Int.fdiv (base * fps * factor.num) (30 * factor.den)

/-- Spec-side C8 formula in `f32` arithmetic with the wrapped pixel count
(the amended claim): same shape as the claim text, with the base written as
a function of the pixel count. -/
def specBase (pixels : Nat) : Nat :=
  if pixels ≤ 921600 then 1500
  else if pixels ≤ 2073600 then 3000
  else 5000

/-- The amended-claim bitrate: `base(width*height mod 2^32) * (fps/30) *
max(0.3, 1-(quality-20)/60)` in `f32`, truncated. -/
def specBitrateF32 (width height fps quality : Nat) : Nat :=
  f32toU32 (fmul
    (fmul (fofNat (specBase (width * height % 2 ^ 32)))
      (fdiv (fofNat fps) (fofNat 30)))
    (qmax (fsub (fofNat 1) (fdiv (fsub (fofNat quality) (fofNat 20)) (fofNat 60)))
      f32_0_3))

/-! ## Discovery service (discovery.rs, `DiscoveryService::handle_message`)

The peer table (`HashMap<String, (PeerInfo, Instant)>`) is modelled as an
association list keyed by the peer id; the `Instant` values play no role in
the claims settled here and are omitted. -/

/-- `PeerRole` (discovery.rs). -/
inductive PeerRole where
  | teacher | student
  deriving Repr, DecidableEq

/-- `PeerInfo` (discovery.rs). -/
structure PeerInfo where
  id : String
  name : String
  role : PeerRole
  ip : String
  stream_port : Nat
  version : String
  deriving Repr, DecidableEq

/-- `DiscoveryMessage` (discovery.rs). -/
inductive DiscoveryMessage where
  | announce (peer : PeerInfo)
  | query
  | response (peer : PeerInfo)
  deriving Repr, DecidableEq

/-- The peer table. -/
abbrev PeerTable := List (String × PeerInfo)

/-- `HashMap::contains_key`. -/
def tableContains (t : PeerTable) (k : String) : Bool :=
  t.any fun e => e.1 = k

/-- `HashMap::insert` (upsert). -/
def tableInsert (t : PeerTable) (k : String) (v : PeerInfo) : PeerTable :=
  if tableContains t k then
    t.map fun e => if e.1 = k then (k, v) else e
  else t ++ [(k, v)]

/-- `DiscoveryService::handle_message` (discovery.rs lines 131-173), effect
on the peer table plus the returned newly-discovered peer.  `srcIp` is the
datagram source address (the `Query` reply is a network side effect that
leaves the table unchanged). -/
def handle_message (selfInfo : PeerInfo) (t : PeerTable) (msg : DiscoveryMessage)
    (srcIp : String) : PeerTable × Option PeerInfo :=
  match msg with
  | DiscoveryMessage.announce peer =>
    let peer := { peer with ip := srcIp }
    if peer.id = selfInfo.id then (t, none)
    else
      let is_new := ¬ tableContains t peer.id
      (tableInsert t peer.id peer, if is_new then some peer else none)
  | DiscoveryMessage.query => (t, none)
  | DiscoveryMessage.response peer =>
    let peer := { peer with ip := srcIp }
    if peer.id ≠ selfInfo.id then
      let is_new := ¬ tableContains t peer.id
      (tableInsert t peer.id peer, if is_new then some peer else none)
    else (t, none)

/-- Fold a sequence of received messages (with their source addresses)
through `handle_message`, starting from table `t`. -/
def handleAll (selfInfo : PeerInfo) (t : PeerTable)
    (msgs : List (DiscoveryMessage × String)) : PeerTable :=
  msgs.foldl (fun t m => (handle_message selfInfo t m.1 m.2).1) t

/-! ## Proof-layer definitions -/

/-- A packetizer-built header (`RtpHeader::new` plus the three field writes of
`packetize_nal`). -/
def mkHeader (ssrc seq ts : Nat) (m : Bool) : RtpHeader :=
  { RtpHeader.new ssrc with sequence := seq, timestamp := ts, marker := m }

/-- The body of `RtpDepacketizer::depacketize` after the header has been
parsed and the payload-type/empty-payload checks have passed, with the used
header fields as parameters.  `depacketize_eq_dstep` proves that
`depacketize` factors through this. -/
def dstep (s : RtpDepacketizer) (seq ts : Nat) (m : Bool) (payload : List Nat) :
    Option (List Nat) × RtpDepacketizer :=
  let s :=
    match s.expected_sequence with
    | some expected =>
      if seq ≠ expected then
        { s with fu_buffer := [], fu_started := false }
      else s
    | none => s
  let s := { s with expected_sequence := some ((seq + 1) % 65536) }
  let s :=
    if ts ≠ s.current_timestamp then
      { s with current_frame := [], current_timestamp := ts }
    else s
  let finish := fun (s : RtpDepacketizer) =>
    if m ∧ s.current_frame ≠ [] then
      (some s.current_frame, { s with current_frame := [] })
    else ((none : Option (List Nat)), s)
  match NalType.fromByte (payload.getD 0 0) with
  | NalType.fuA =>
    if payload.length < 2 then (none, s)
    else
      let fu_indicator := payload.getD 0 0
      let fu_header := payload.getD 1 0
      let is_start := (fu_header >>> 7) &&& 1 = 1
      let is_end := (fu_header >>> 6) &&& 1 = 1
      let nal_type := fu_header &&& 31
      let s :=
        if is_start then
          { s with fu_buffer := [(fu_indicator &&& 224) ||| nal_type],
                   fu_started := true }
        else s
      let s :=
        if s.fu_started then
          { s with fu_buffer := s.fu_buffer ++ payload.drop 2 }
        else s
      let s :=
        if is_end ∧ s.fu_started then
          { s with current_frame := s.current_frame ++ [0, 0, 0, 1] ++ s.fu_buffer,
                   fu_buffer := [], fu_started := false }
        else s
      finish s
  | _ =>
    finish { s with current_frame := s.current_frame ++ [0, 0, 0, 1] ++ payload }

/-- `dstep` specialised to an FU-A payload `[fuInd, fuHdr] ++ c` (the
`NalType::FuA` match arm of `depacketize`, rtp.rs lines 364-394, with the
payload fields resolved).  `dstep_fua` proves the factoring. -/
def fuaStep (D : RtpDepacketizer) (seq ts : Nat) (m : Bool) (fuInd fuHdr : Nat)
    (c : List Nat) : Option (List Nat) × RtpDepacketizer :=
  let s :=
    match D.expected_sequence with
    | some expected =>
      if seq ≠ expected then
        { D with fu_buffer := [], fu_started := false }
      else D
    | none => D
  let s := { s with expected_sequence := some ((seq + 1) % 65536) }
  let s :=
    if ts ≠ s.current_timestamp then
      { s with current_frame := [], current_timestamp := ts }
    else s
  let finish := fun (s : RtpDepacketizer) =>
    if m ∧ s.current_frame ≠ [] then
      (some s.current_frame, { s with current_frame := [] })
    else ((none : Option (List Nat)), s)
  let is_start := (fuHdr >>> 7) &&& 1 = 1
  let is_end := (fuHdr >>> 6) &&& 1 = 1
  let nal_type := fuHdr &&& 31
  let s :=
    if is_start then
      { s with fu_buffer := [(fuInd &&& 224) ||| nal_type], fu_started := true }
    else s
  let s :=
    if s.fu_started then
      { s with fu_buffer := s.fu_buffer ++ c }
    else s
  let s :=
    if is_end ∧ s.fu_started then
      { s with current_frame := s.current_frame ++ [0, 0, 0, 1] ++ s.fu_buffer,
               fu_buffer := [], fu_started := false }
    else s
  finish s

/-- The FU-A packets `packetize_nal` emits for a chunked payload: one packet
per chunk, sequence numbers advancing by `u16::wrapping_add`, S on the
first fragment (`j = 0`), E and (for the last NAL of the access unit) the
marker on the last (`j = K - 1`, `K` the chunk count).
`packetize_nal_fua` proves that `packetize_nal` produces exactly these. -/
def genFuaPackets (ssrc ts fuInd ntype K : Nat) (lastN : Bool) :
    Nat → Nat → List (List Nat) → List (List Nat)
  | _, _, [] => []
  | s, j, c :: cs =>
    ((mkHeader ssrc s ts (decide (j = K - 1) && lastN)).serialize
      ++ [fuInd, (bite (j = 0) <<< 7) ||| (bite (j = K - 1) <<< 6) ||| ntype] ++ c)
    :: genFuaPackets ssrc ts fuInd ntype K lastN ((s + 1) % 65536) (j + 1) cs

/-- Spec-side FU indicator, following the claim wording for C7: the spec
demands `(orig_NAL_header & 0xE0) | 28`, while the code computes
`(orig_NAL_header & 0x60) | 28` (it drops the forbidden-zero bit 0x80). -/
def specFuIndicator (h : Nat) : Nat :=
  (h &&& 224) ||| 28

/-- Well-formedness of a NAL payload for the splitter round-trip: nonempty,
no trailing zero byte, and no 3-byte start-code pattern `00 00 01` starting
anywhere inside it. -/
def ValidNal (n : List Nat) : Prop :=
  n ≠ [] ∧ n.getLast? ≠ some 0
    ∧ ∀ r < n.length,
        ¬(n.getD r 0 = 0 ∧ n.getD (r + 1) 0 = 0 ∧ n.getD (r + 2) 0 = 1)

instance (n : List Nat) : Decidable (ValidNal n) := by
  unfold ValidNal
  infer_instance

/-- Annex-B start code: 3-byte (`true`) or 4-byte (`false`). -/
def startCode (b : Bool) : List Nat := if b then [0, 0, 1] else [0, 0, 0, 1]

/-- Encode an access unit: each NAL prefixed by its chosen start code, with
no padding between NALs. -/
def encodeAU (l : List (Bool × List Nat)) : List Nat :=
  (l.map fun q => startCode q.1 ++ q.2).flatten

/-- Well-formedness of a NAL for the packetize→depacketize round trip: a
`ValidNal` whose header byte has the forbidden-zero bit clear and whose
type is not 28 (FU-A), as for every NAL an encoder emits. -/
def ValidNalRtp (n : List Nat) : Prop :=
  ValidNal n ∧ n.getD 0 0 < 128 ∧ n.getD 0 0 &&& 31 ≠ 28

instance (n : List Nat) : Decidable (ValidNalRtp n) := by
  unfold ValidNalRtp
  infer_instance

/-- The per-NAL recursion underlying the `packetize` fold (rtp.rs lines
181-188): packetize each NAL in turn, threading the packetizer state;
`K` is the total NAL count, so the NAL at index `K - 1` is the last one. -/
def packNals (K : Nat) : RtpPacketizer → Nat → List (List Nat) →
    List (List Nat) × RtpPacketizer
  | q, _, [] => ([], q)
  | q, i, nal :: ns =>
    let r := packetize_nal q nal (decide (i = K - 1))
    let rest := packNals K r.2 (i + 1) ns
    (r.1 ++ rest.1, rest.2)

/-- A start-code match at position `k`, exactly as tested by the
`find_nal_units` loop (rtp.rs lines 199-206). -/
def nalMatchAt (data : List Nat) (k : Nat) : Prop :=
  k + 3 < data.length ∧ data.getD k 0 = 0 ∧ data.getD (k + 1) 0 = 0
    ∧ (data.getD (k + 2) 0 = 1
       ∨ (k + 4 < data.length ∧ data.getD (k + 2) 0 = 0 ∧ data.getD (k + 3) 0 = 1))

/-- Spec-side predicate, following the claim wording for C3: the Annex-B
stream contains, at some 3-byte or 4-byte start code anywhere in the buffer,
a NAL of type 5 or 7. -/
def containsKeyframeNal (data : List Nat) : Bool :=
  (List.range data.length).any fun i =>
    decide ((data.getD i 0 = 0 ∧ data.getD (i+1) 0 = 0 ∧ data.getD (i+2) 0 = 1
        ∧ i + 3 < data.length
        ∧ (data.getD (i+3) 0 &&& 31 = 5 ∨ data.getD (i+3) 0 &&& 31 = 7))
      ∨ (data.getD i 0 = 0 ∧ data.getD (i+1) 0 = 0 ∧ data.getD (i+2) 0 = 0
        ∧ data.getD (i+3) 0 = 1 ∧ i + 4 < data.length
        ∧ (data.getD (i+4) 0 &&& 31 = 5 ∨ data.getD (i+4) 0 &&& 31 = 7)))

/-- Spec-side STAP-A payload iteration, following the claim wording for C2:
split the bytes after the STAP-A NAL header into `(u16 big-endian size,
bytes)` tuples.  The first argument is fuel (the byte count suffices). -/
def stapSplit : Nat → List Nat → List (List Nat)
  | 0, _ => []
  | _ + 1, [] => []
  | _ + 1, [_] => []
  | fuel + 1, s1 :: s2 :: rest =>
    let size := (s1 <<< 8) ||| s2
    rest.take size :: stapSplit fuel (rest.drop size)

/-- Spec-side C2 expectation: what the claim says a STAP-A packet appends to
the current frame (an Annex-B start code plus each contained NAL). -/
def stapExpected (payload : List Nat) : List Nat :=
  ((stapSplit payload.length (payload.drop 1)).map fun n => [0, 0, 0, 1] ++ n).flatten

/-! ## Byte recomposition lemmas -/

theorem recompose (x k m : Nat) :
    ((x >>> k % 2 ^ m) <<< k) ||| x % 2 ^ k = x % 2 ^ (k + m) := by
  apply Nat.eq_of_testBit_eq
  intro i
  simp only [Nat.testBit_lor, Nat.testBit_shiftLeft, Nat.testBit_mod_two_pow,
    Nat.testBit_shiftRight, ge_iff_le]
  by_cases h1 : k ≤ i
  · have h2 : ¬ i < k := by omega
    have h3 : k + (i - k) = i := by omega
    by_cases h4 : i - k < m
    · have h5 : i < k + m := by omega
      simp [h1, h2, h3, h4, h5]
    · have h5 : ¬ i < k + m := by omega
      simp [h1, h2, h3, h4, h5]
  · have h2 : i < k := by omega
    have h5 : i < k + m := by omega
    simp [h1, h2, h5]

theorem u16_of_bytes (s : Nat) (h : s < 65536) :
    ((s >>> 8 % 256) <<< 8) ||| s % 256 = s := by
  have := recompose s 8 8
  norm_num at this
  rw [this, Nat.mod_eq_of_lt]
  omega

theorem u32_of_bytes (t : Nat) (h : t < 2 ^ 32) :
    ((t >>> 24 % 256) <<< 24) ||| ((t >>> 16 % 256) <<< 16)
      ||| ((t >>> 8 % 256) <<< 8) ||| t % 256 = t := by
  have h8 := recompose t 8 8
  have h16 := recompose t 16 8
  have h24 := recompose t 24 8
  norm_num at h8 h16 h24
  calc ((t >>> 24 % 256) <<< 24) ||| ((t >>> 16 % 256) <<< 16)
      ||| ((t >>> 8 % 256) <<< 8) ||| t % 256
      = ((t >>> 24 % 256) <<< 24) ||| (((t >>> 16 % 256) <<< 16)
        ||| (((t >>> 8 % 256) <<< 8) ||| t % 256)) := by
        rw [Nat.lor_assoc, Nat.lor_assoc]
    _ = t % 2 ^ 32 := by rw [h8, h16, h24]; norm_num
    _ = t := Nat.mod_eq_of_lt h

theorem u32_of_bytes_mod (t : Nat) :
    ((t >>> 24 % 256) <<< 24) ||| ((t >>> 16 % 256) <<< 16)
      ||| ((t >>> 8 % 256) <<< 8) ||| t % 256 = t % 2 ^ 32 := by
  have h8 := recompose t 8 8
  have h16 := recompose t 16 8
  have h24 := recompose t 24 8
  norm_num at h8 h16 h24
  rw [Nat.lor_assoc, Nat.lor_assoc, h8, h16, h24]
  norm_num

/-! ## Parse/serialize round trip -/

theorem serialize_length (h : RtpHeader) : h.serialize.length = 12 := by
  simp [RtpHeader.serialize]

theorem serialize_append_drop (h : RtpHeader) (rest : List Nat) :
    (h.serialize ++ rest).drop 12 = rest := by
  rw [List.drop_append_of_le_length (by simp [serialize_length])]
  simp [serialize_length]

theorem serialize_mk (ssrc seq ts : Nat) (m : Bool) :
    (mkHeader ssrc seq ts m).serialize =
      [128, if m then 224 else 96,
       seq >>> 8 % 256, seq % 256,
       ts >>> 24 % 256, ts >>> 16 % 256, ts >>> 8 % 256, ts % 256,
       ssrc >>> 24 % 256, ssrc >>> 16 % 256, ssrc >>> 8 % 256, ssrc % 256] := by
  cases m <;> simp [mkHeader, RtpHeader.new, RtpHeader.serialize, bite] <;> decide

theorem parse_serialize (ssrc seq ts : Nat) (m : Bool) (rest : List Nat)
    (hs : seq < 65536) (ht : ts < 2 ^ 32) :
    RtpHeader.parse ((mkHeader ssrc seq ts m).serialize ++ rest) =
      some (mkHeader (ssrc % 2 ^ 32) seq ts m) := by
  rw [serialize_mk]
  cases m <;>
  · simp only [List.cons_append, List.nil_append, if_true, if_false]
    unfold RtpHeader.parse
    rw [if_neg (by simp)]
    simp only [List.getD_cons_zero, List.getD_cons_succ]
    norm_num [mkHeader, RtpHeader.new, u16_of_bytes seq hs, u32_of_bytes ts ht,
      u32_of_bytes_mod ssrc]
    all_goals decide

/-! ## Depacketizer step lemmas -/

theorem depacketize_eq_dstep (s : RtpDepacketizer) (rtp : List Nat) (hdr : RtpHeader)
    (hparse : RtpHeader.parse rtp = some hdr) (hpt : hdr.payload_type = 96)
    (hne : rtp.drop 12 ≠ []) :
    depacketize s rtp = dstep s hdr.sequence hdr.timestamp hdr.marker (rtp.drop 12) := by
  unfold depacketize dstep
  rw [hparse]
  simp only [hpt, ne_eq, not_true_eq_false, if_false, ite_false, reduceIte,
    if_neg hne]

/-- Behaviour of a depacketizer step on a packet whose payload is not FU-A:
the whole payload is appended to the current frame behind a 4-byte start
code (after the timestamp-change reset), and the frame is emitted iff the
marker bit is set. -/
theorem dstep_not_fua (s : RtpDepacketizer) (seq ts : Nat) (m : Bool)
    (payload : List Nat)
    (hnf : NalType.fromByte (payload.getD 0 0) ≠ NalType.fuA) :
    (dstep s seq ts m payload).1 =
        (if m then
          some ((if ts ≠ s.current_timestamp then [] else s.current_frame)
            ++ [0, 0, 0, 1] ++ payload)
         else none)
      ∧ (dstep s seq ts m payload).2.current_frame =
        (if m then []
         else (if ts ≠ s.current_timestamp then [] else s.current_frame)
            ++ [0, 0, 0, 1] ++ payload) := by
  unfold dstep
  rcases hfb : NalType.fromByte (payload.getD 0 0) <;> try (exact absurd hfb hnf)
  all_goals
    rcases hexp : s.expected_sequence with _ | e <;>
    [skip; by_cases hseq : seq ≠ e] <;>
    by_cases hts : ts ≠ s.current_timestamp <;>
    cases m <;>
    simp_all

/-! ## Chunking lemmas -/

theorem rustChunksAux_fuel (n : Nat) (hn : 0 < n) :
    ∀ f1 f2 (l : List α), l.length ≤ f1 → l.length ≤ f2 →
      rustChunksAux n f1 l = rustChunksAux n f2 l := by
  intro f1
  induction f1 with
  | zero =>
    intro f2 l h1 h2
    have : l = [] := by
      cases l with
      | nil => rfl
      | cons x xs => simp at h1
    subst this
    cases f2 <;> rfl
  | succ f1 ih =>
    intro f2 l h1 h2
    cases l with
    | nil => cases f2 <;> rfl
    | cons x xs =>
      cases f2 with
      | zero => simp at h2
      | succ f2 =>
        simp only [List.length_cons] at h1 h2
        unfold rustChunksAux
        rw [if_neg (by omega), if_neg (by omega)]
        rw [ih f2 ((x :: xs).drop n) (by simp; omega) (by simp; omega)]

theorem rustChunks_cons (n : Nat) (hn : 0 < n) (l : List α) (hl : l ≠ []) :
    rustChunks n l = l.take n :: rustChunks n (l.drop n) := by
  cases l with
  | nil => exact absurd rfl hl
  | cons x xs =>
    show rustChunksAux n (xs.length + 1) (x :: xs) = _
    conv_lhs => unfold rustChunksAux
    rw [if_neg (by omega)]
    rw [rustChunksAux_fuel n hn xs.length ((x :: xs).drop n).length ((x :: xs).drop n)
      (by simp; omega) (le_refl _)]
    rfl

theorem rustChunks_length (n : Nat) (hn : 0 < n) :
    ∀ (k : Nat) (l : List α), l.length ≤ k →
      (rustChunks n l).length = (l.length + (n - 1)) / n := by
  intro k
  induction k with
  | zero =>
    intro l hl
    have : l = [] := by
      cases l with
      | nil => rfl
      | cons x xs => simp at hl
    subst this
    simp [rustChunks, rustChunksAux, Nat.div_eq_of_lt (show n - 1 < n by omega)]
  | succ k ih =>
    intro l hl
    cases hcl : l with
    | nil =>
      simp [rustChunks, rustChunksAux, Nat.div_eq_of_lt (show n - 1 < n by omega)]
    | cons x xs =>
      rw [← hcl, rustChunks_cons n hn l (by simp [hcl])]
      have hlen : l.length = xs.length + 1 := by rw [hcl]; simp
      rw [List.length_cons, ih (l.drop n) (by simp; omega)]
      rw [List.length_drop]
      rcases Nat.lt_or_ge (l.length) (n + 1) with hsmall | hbig
      · have h1 : l.length - n = 0 := by omega
        rw [h1]
        rw [Nat.div_eq_of_lt (show 0 + (n - 1) < n by omega)]
        have h2 : l.length + (n - 1) = (l.length - 1) + n := by omega
        rw [h2, Nat.add_div_right _ hn, Nat.div_eq_of_lt (show l.length - 1 < n by omega)]
      · have h2 : l.length - n + (n - 1) + n = l.length + (n - 1) := by omega
        rw [← h2, Nat.add_div_right _ hn]

theorem rustChunks_getD (n : Nat) (hn : 0 < n) :
    ∀ (k : Nat) (l : List α) (i : Nat), l.length ≤ k →
      (rustChunks n l).getD i [] = (l.drop (n * i)).take n := by
  intro k
  induction k with
  | zero =>
    intro l i hl
    have : l = [] := by
      cases l with
      | nil => rfl
      | cons x xs => simp at hl
    subst this
    simp [rustChunks, rustChunksAux]
  | succ k ih =>
    intro l i hl
    cases hcl : l with
    | nil => simp [rustChunks, rustChunksAux]
    | cons x xs =>
      rw [← hcl, rustChunks_cons n hn l (by simp [hcl])]
      cases i with
      | zero => simp
      | succ i =>
        have hlen : l.length = xs.length + 1 := by rw [hcl]; simp
        rw [List.getD_cons_succ, ih (l.drop n) i (by simp; omega)]
        rw [List.drop_drop]
        congr 2
        ring

/-! ## FU-A packetization characterization -/

theorem genFua_length (ssrc ts fuInd ntype K : Nat) (lastN : Bool) :
    ∀ (cs : List (List Nat)) (s j : Nat),
      (genFuaPackets ssrc ts fuInd ntype K lastN s j cs).length = cs.length := by
  intro cs
  induction cs with
  | nil => intro s j; rfl
  | cons c cs ih =>
    intro s j
    unfold genFuaPackets
    rw [List.length_cons, List.length_cons, ih]

theorem genFua_getD (ssrc ts fuInd ntype K : Nat) (lastN : Bool) :
    ∀ (cs : List (List Nat)) (s j i : Nat), s < 65536 → i < cs.length →
      (genFuaPackets ssrc ts fuInd ntype K lastN s j cs).getD i [] =
        (mkHeader ssrc ((s + i) % 65536) ts (decide (j + i = K - 1) && lastN)).serialize
          ++ [fuInd, (bite (j + i = 0) <<< 7) ||| (bite (j + i = K - 1) <<< 6) ||| ntype]
          ++ cs.getD i [] := by
  intro cs
  induction cs with
  | nil =>
    intro s j i hs hi
    simp at hi
  | cons c cs ih =>
    intro s j i hs hi
    cases i with
    | zero =>
      unfold genFuaPackets
      rw [List.getD_cons_zero, List.getD_cons_zero]
      rw [show (s + 0) % 65536 = s by omega, Nat.add_zero]
    | succ i =>
      unfold genFuaPackets
      rw [List.getD_cons_succ, List.getD_cons_succ]
      rw [ih ((s + 1) % 65536) (j + 1) i (by omega) (by simpa using hi)]
      rw [show ((s + 1) % 65536 + i) % 65536 = (s + (i + 1)) % 65536 by omega]
      rw [show j + 1 + i = j + (i + 1) by omega]

theorem genFua_head_fuInd (ssrc ts fuInd ntype K : Nat) (lastN : Bool)
    (s j : Nat) (c : List Nat) (cs : List (List Nat)) :
    ((genFuaPackets ssrc ts fuInd ntype K lastN s j (c :: cs)).getD 0 []).getD 12 0
      = fuInd := by
  rw [show genFuaPackets ssrc ts fuInd ntype K lastN s j (c :: cs) =
      ((mkHeader ssrc s ts (decide (j = K - 1) && lastN)).serialize
        ++ [fuInd, (bite (decide (j = 0)) <<< 7) ||| (bite (decide (j = K - 1)) <<< 6) ||| ntype]
        ++ c)
      :: genFuaPackets ssrc ts fuInd ntype K lastN ((s + 1) % 65536) (j + 1) cs from rfl]
  rw [List.getD_cons_zero]
  rw [List.getD_append _ _ _ _ (by simp [serialize_length])]
  rw [List.getD_append_right _ _ _ _ (by simp [serialize_length])]
  simp [serialize_length]

theorem fuaFold_eq (ssrc fuInd ntype K : Nat) (lastN : Bool) :
    ∀ (cs : List (List Nat)) (j : Nat) (acc : List (List Nat)) (q : RtpPacketizer),
      q.sequence < 65536 →
      (List.enumFrom j cs).foldl
        (fun a ic =>
          (a.1 ++ [({ RtpHeader.new ssrc with
                      sequence := a.2.sequence, timestamp := a.2.timestamp,
                      marker := decide (ic.1 = K - 1) && lastN }).serialize
                    ++ [fuInd, (bite (decide (ic.1 = 0)) <<< 7) |||
                               (bite (decide (ic.1 = K - 1)) <<< 6) ||| ntype]
                    ++ ic.2],
           { a.2 with sequence := (a.2.sequence + 1) % 65536 }))
        (acc, q)
      = (acc ++ genFuaPackets ssrc q.timestamp fuInd ntype K lastN q.sequence j cs,
         { q with sequence := (q.sequence + cs.length) % 65536 }) := by
  intro cs
  induction cs with
  | nil =>
    intro j acc q hq
    show (acc, q) = _
    rw [show genFuaPackets ssrc q.timestamp fuInd ntype K lastN q.sequence j [] = [] from rfl]
    rw [List.append_nil, List.length_nil,
        show (q.sequence + 0) % 65536 = q.sequence by omega]
  | cons c cs ih =>
    intro j acc q hq
    rw [show List.enumFrom j (c :: cs) = (j, c) :: List.enumFrom (j + 1) cs from rfl,
        List.foldl_cons]
    refine (ih (j + 1) _ { q with sequence := (q.sequence + 1) % 65536 }
      (Nat.mod_lt _ (by omega))).trans ?_
    dsimp only
    rw [show genFuaPackets ssrc q.timestamp fuInd ntype K lastN q.sequence j (c :: cs) =
        ((mkHeader ssrc q.sequence q.timestamp (decide (j = K - 1) && lastN)).serialize
          ++ [fuInd, (bite (decide (j = 0)) <<< 7) |||
                     (bite (decide (j = K - 1)) <<< 6) ||| ntype]
          ++ c)
        :: genFuaPackets ssrc q.timestamp fuInd ntype K lastN ((q.sequence + 1) % 65536)
             (j + 1) cs from rfl]
    rw [show ((q.sequence + 1) % 65536 + cs.length) % 65536
          = (q.sequence + (c :: cs).length) % 65536 by rw [List.length_cons]; omega]
    rw [List.append_assoc, List.singleton_append]
    rfl

theorem packetize_nal_fua (p : RtpPacketizer) (nal : List Nat) (lastN : Bool)
    (hlen : MAX_RTP_PAYLOAD < nal.length) (hseq : p.sequence < 65536) :
    packetize_nal p nal lastN =
      (genFuaPackets p.ssrc p.timestamp ((nal.getD 0 0 &&& 96) ||| 28) (nal.getD 0 0 &&& 31)
         (rustChunks 1398 (nal.drop 1)).length lastN p.sequence 0 (rustChunks 1398 (nal.drop 1)),
       { p with sequence :=
           (p.sequence + (rustChunks 1398 (nal.drop 1)).length) % 65536 }) := by
  have hne : nal ≠ [] := by
    intro h
    rw [h] at hlen
    simp [MAX_RTP_PAYLOAD] at hlen
  unfold packetize_nal
  rw [if_neg hne, if_neg (by omega)]
  exact fuaFold_eq p.ssrc ((nal.getD 0 0 &&& 96) ||| 28) (nal.getD 0 0 &&& 31)
    (rustChunks 1398 (nal.drop 1)).length lastN (rustChunks 1398 (nal.drop 1)) 0 [] p hseq

/-! ## FU-A depacketization step lemmas -/

theorem fromByte_fuInd (h : Nat) : NalType.fromByte ((h &&& 96) ||| 28) = NalType.fuA := by
  have hm : ((h &&& 96) ||| 28) &&& 31 = 28 := by
    rw [Nat.and_distrib_right, Nat.land_assoc,
        show (96 : Nat) &&& 31 = 0 by decide, Nat.and_zero,
        show (28 : Nat) &&& 31 = 28 by decide, Nat.zero_or]
  unfold NalType.fromByte
  rw [hm]

theorem fuhdr_bits : ∀ nt < 32, ∀ b1 b2 : Bool,
    (((bite b1 <<< 7) ||| (bite b2 <<< 6) ||| nt) >>> 7) &&& 1 = bite b1
    ∧ (((bite b1 <<< 7) ||| (bite b2 <<< 6) ||| nt) >>> 6) &&& 1 = bite b2 := by
  decide

theorem genFua_cons (ssrc ts fuInd ntype K : Nat) (lastN : Bool) (s j : Nat)
    (c : List Nat) (cs : List (List Nat)) :
    genFuaPackets ssrc ts fuInd ntype K lastN s j (c :: cs)
      = ((mkHeader ssrc s ts (decide (j = K - 1) && lastN)).serialize
          ++ [fuInd,
              (bite (decide (j = 0)) <<< 7) ||| (bite (decide (j = K - 1)) <<< 6) ||| ntype]
          ++ c)
        :: genFuaPackets ssrc ts fuInd ntype K lastN ((s + 1) % 65536) (j + 1) cs := rfl

theorem runDep_cons (D : RtpDepacketizer) (pkt : List Nat) (ps : List (List Nat)) :
    runDep D (pkt :: ps)
      = ((depacketize D pkt).1 :: (runDep (depacketize D pkt).2 ps).1,
         (runDep (depacketize D pkt).2 ps).2) := rfl

theorem dstep_fua (D : RtpDepacketizer) (seq ts : Nat) (m : Bool) (fuInd fuHdr : Nat)
    (c : List Nat) (hfu : NalType.fromByte fuInd = NalType.fuA) :
    dstep D seq ts m ([fuInd, fuHdr] ++ c) = fuaStep D seq ts m fuInd fuHdr c := by
  unfold dstep
  rw [show ([fuInd, fuHdr] ++ c : List Nat).getD 0 0 = fuInd from rfl, hfu]
  dsimp only
  rw [if_neg (by simp only [List.cons_append, List.nil_append, List.length_cons]; omega)]
  rfl

theorem depacketize_fua_frag (D : RtpDepacketizer) (ssrc s' ts : Nat) (mk : Bool)
    (fuInd fuHdr : Nat) (c : List Nat) (hs : s' < 65536) (ht : ts < 2 ^ 32)
    (hfu : NalType.fromByte fuInd = NalType.fuA) :
    depacketize D ((mkHeader ssrc s' ts mk).serialize ++ [fuInd, fuHdr] ++ c)
      = fuaStep D s' ts mk fuInd fuHdr c := by
  rw [List.append_assoc]
  rw [depacketize_eq_dstep D _ (mkHeader (ssrc % 2 ^ 32) s' ts mk)
      (parse_serialize ssrc s' ts mk ([fuInd, fuHdr] ++ c) hs ht) rfl
      (by rw [serialize_append_drop]; simp)]
  rw [serialize_append_drop]
  exact dstep_fua D s' ts mk fuInd fuHdr c hfu

theorem dstep_gap (s : RtpDepacketizer) (e seq ts : Nat) (m : Bool) (payload : List Nat)
    (he : s.expected_sequence = some e) (hg : seq ≠ e) :
    dstep s seq ts m payload
      = dstep { s with fu_buffer := [], fu_started := false } seq ts m payload := by
  unfold dstep
  dsimp only
  rw [he]
  dsimp only
  rw [if_pos hg, if_pos hg]

theorem fuaStep_dead_seq (seq ts : Nat) (m : Bool) (fuInd fuHdr : Nat) (c fb : List Nat)
    (hS : (fuHdr >>> 7) &&& 1 ≠ 1) :
    fuaStep ⟨some seq, [], ts, fb, false⟩ seq ts m fuInd fuHdr c
      = (none, ⟨some ((seq + 1) % 65536), [], ts, fb, false⟩) := by
  rw [Nat.and_one_is_mod] at hS
  simp [fuaStep, hS]

theorem fuaStep_gap_dead (D : RtpDepacketizer) (e seq ts : Nat) (m : Bool)
    (fuInd fuHdr : Nat) (c : List Nat)
    (he : D.expected_sequence = some e) (hg : seq ≠ e)
    (hS : (fuHdr >>> 7) &&& 1 ≠ 1)
    (hcf : D.current_frame = []) (hct : D.current_timestamp = ts) :
    fuaStep D seq ts m fuInd fuHdr c
      = (none, ⟨some ((seq + 1) % 65536), [], ts, [], false⟩) := by
  rw [Nat.and_one_is_mod] at hS
  simp [fuaStep, he, hg, hS, hcf, hct]

theorem fuaStep_cont (seq ts : Nat) (m : Bool) (fuInd fuHdr : Nat) (c fb : List Nat)
    (hS : (fuHdr >>> 7) &&& 1 ≠ 1) (hE : (fuHdr >>> 6) &&& 1 ≠ 1) :
    fuaStep ⟨some seq, [], ts, fb, true⟩ seq ts m fuInd fuHdr c
      = (none, ⟨some ((seq + 1) % 65536), [], ts, fb ++ c, true⟩) := by
  rw [Nat.and_one_is_mod] at hS hE
  simp [fuaStep, hS, hE]

theorem fuaStep_first (seq ts : Nat) (m : Bool) (fuInd fuHdr : Nat) (c : List Nat)
    (hS : (fuHdr >>> 7) &&& 1 = 1) (hE : (fuHdr >>> 6) &&& 1 ≠ 1) :
    fuaStep RtpDepacketizer.new seq ts m fuInd fuHdr c
      = (none, ⟨some ((seq + 1) % 65536), [], ts,
                ((fuInd &&& 224) ||| (fuHdr &&& 31)) :: c, true⟩) := by
  rw [Nat.and_one_is_mod] at hS hE
  by_cases h0 : ts = 0
  · subst h0
    simp [fuaStep, RtpDepacketizer.new, hS, hE]
  · simp [fuaStep, RtpDepacketizer.new, hS, hE, h0]

theorem genFua_take (ssrc ts fuInd ntype K : Nat) (lastN : Bool) :
    ∀ (cs : List (List Nat)) (s j t : Nat),
      (genFuaPackets ssrc ts fuInd ntype K lastN s j cs).take t
        = genFuaPackets ssrc ts fuInd ntype K lastN s j (cs.take t) := by
  intro cs
  induction cs with
  | nil => intro s j t; cases t <;> rfl
  | cons c cs ih =>
    intro s j t
    cases t with
    | zero => rfl
    | succ t =>
      rw [genFua_cons, List.take_succ_cons, List.take_succ_cons, genFua_cons, ih]

theorem genFua_drop (ssrc ts fuInd ntype K : Nat) (lastN : Bool) :
    ∀ (cs : List (List Nat)) (s j t : Nat), s < 65536 →
      (genFuaPackets ssrc ts fuInd ntype K lastN s j cs).drop t
        = genFuaPackets ssrc ts fuInd ntype K lastN ((s + t) % 65536) (j + t) (cs.drop t) := by
  intro cs
  induction cs with
  | nil =>
    intro s j t hs
    cases t <;> rfl
  | cons c cs ih =>
    intro s j t hs
    cases t with
    | zero =>
      rw [Nat.add_zero, Nat.add_zero, List.drop_zero, List.drop_zero,
          Nat.mod_eq_of_lt hs]
    | succ t =>
      rw [genFua_cons, List.drop_succ_cons, List.drop_succ_cons,
          ih ((s + 1) % 65536) (j + 1) t (Nat.mod_lt _ (by omega))]
      rw [show ((s + 1) % 65536 + t) % 65536 = (s + (t + 1)) % 65536 by omega,
          show j + 1 + t = j + (t + 1) by omega]

theorem runDep_append (l1 l2 : List (List Nat)) :
    ∀ (D : RtpDepacketizer),
      runDep D (l1 ++ l2)
        = ((runDep D l1).1 ++ (runDep (runDep D l1).2 l2).1,
           (runDep (runDep D l1).2 l2).2) := by
  induction l1 with
  | nil => intro D; rfl
  | cons p ps ih =>
    intro D
    rw [List.cons_append, runDep_cons, ih, runDep_cons]
    rfl

theorem deadFeedClean (ssrc ts fuInd ntype K : Nat) (lastN : Bool)
    (hts : ts < 2 ^ 32) (hfu : NalType.fromByte fuInd = NalType.fuA) (hnt : ntype < 32) :
    ∀ (cs : List (List Nat)) (j s : Nat), 1 ≤ j → s < 65536 →
      runDep ⟨some s, [], ts, [], false⟩ (genFuaPackets ssrc ts fuInd ntype K lastN s j cs)
        = (List.replicate cs.length none,
           ⟨some ((s + cs.length) % 65536), [], ts, [], false⟩) := by
  intro cs
  induction cs with
  | nil =>
    intro j s hj hs
    show ([], (⟨some s, [], ts, [], false⟩ : RtpDepacketizer)) = _
    rw [List.length_nil, show (s + 0) % 65536 = s by omega]
    rfl
  | cons c cs ih =>
    intro j s hj hs
    have hbits := fuhdr_bits ntype hnt (decide (j = 0)) (decide (j = K - 1))
    have hS : (((bite (decide (j = 0)) <<< 7) ||| (bite (decide (j = K - 1)) <<< 6) ||| ntype)
        >>> 7) &&& 1 ≠ 1 := by
      rw [hbits.1, show decide (j = 0) = false from decide_eq_false (by omega)]
      decide
    rw [genFua_cons, runDep_cons,
        depacketize_fua_frag _ ssrc s ts _ fuInd _ c hs hts hfu,
        fuaStep_dead_seq s ts _ fuInd _ c [] hS,
        ih (j + 1) ((s + 1) % 65536) (by omega) (Nat.mod_lt _ (by omega))]
    rw [List.length_cons,
        show ((s + 1) % 65536 + cs.length) % 65536 = (s + (cs.length + 1)) % 65536 by omega]
    rfl

theorem livePrefix (ssrc ts fuInd ntype K : Nat) (lastN : Bool)
    (hts : ts < 2 ^ 32) (hfu : NalType.fromByte fuInd = NalType.fuA) (hnt : ntype < 32) :
    ∀ (cs : List (List Nat)) (j s : Nat) (fb : List Nat),
      1 ≤ j → j + cs.length ≤ K - 1 → s < 65536 →
      runDep ⟨some s, [], ts, fb, true⟩ (genFuaPackets ssrc ts fuInd ntype K lastN s j cs)
        = (List.replicate cs.length none,
           ⟨some ((s + cs.length) % 65536), [], ts, fb ++ cs.flatten, true⟩) := by
  intro cs
  induction cs with
  | nil =>
    intro j s fb hj hK hs
    show ([], (⟨some s, [], ts, fb, true⟩ : RtpDepacketizer)) = _
    rw [List.length_nil, show (s + 0) % 65536 = s by omega, List.flatten_nil,
        List.append_nil]
    rfl
  | cons c cs ih =>
    intro j s fb hj hK hs
    have hbits := fuhdr_bits ntype hnt (decide (j = 0)) (decide (j = K - 1))
    have hS : (((bite (decide (j = 0)) <<< 7) ||| (bite (decide (j = K - 1)) <<< 6) ||| ntype)
        >>> 7) &&& 1 ≠ 1 := by
      rw [hbits.1, show decide (j = 0) = false from decide_eq_false (by omega)]
      decide
    have hE : (((bite (decide (j = 0)) <<< 7) ||| (bite (decide (j = K - 1)) <<< 6) ||| ntype)
        >>> 6) &&& 1 ≠ 1 := by
      rw [hbits.2, show decide (j = K - 1) = false from decide_eq_false (by
        simp only [List.length_cons] at hK
        omega)]
      decide
    rw [genFua_cons, runDep_cons,
        depacketize_fua_frag _ ssrc s ts _ fuInd _ c hs hts hfu,
        fuaStep_cont s ts _ fuInd _ c fb hS hE,
        ih (j + 1) ((s + 1) % 65536) (fb ++ c) (by omega)
          (by simp only [List.length_cons] at hK ⊢; omega) (Nat.mod_lt _ (by omega))]
    rw [List.length_cons,
        show ((s + 1) % 65536 + cs.length) % 65536 = (s + (cs.length + 1)) % 65536 by omega,
        List.flatten_cons, List.append_assoc]
    rfl

/-! ## Claim C7: FU-A fragmentation -/

/-- C7 counterexample: for a 1401-byte NAL whose header byte is `0x80`
(forbidden-zero bit set, NRI 0, type 0), the first FU-A packet's FU
indicator byte (packet byte 12) is `(0x80 & 0x60) | 28 = 28`, while the
claimed formula `(0x80 & 0xE0) | 28` gives 156. -/
theorem c7_counterexample :
    ((packetize_nal ⟨0, 0, 0, 90000⟩ (128 :: List.replicate 1400 1) true).1.getD 0 []).getD
        12 0 = 28
      ∧ specFuIndicator 128 = 156 ∧ (28 : Nat) ≠ 156 := by
  refine ⟨?_, by decide, by decide⟩
  rw [packetize_nal_fua ⟨0, 0, 0, 90000⟩ (128 :: List.replicate 1400 1) true
    (by simp only [MAX_RTP_PAYLOAD, List.length_cons, List.length_replicate]; omega)
    (by decide)]
  dsimp only
  rw [rustChunks_cons 1398 (by omega) _
    (by rw [List.drop_one, List.tail_cons]
        intro h
        rw [List.replicate_eq_nil_iff] at h
        omega)]
  rw [genFua_head_fuInd]
  decide

/-- C7 (corrected): for a NAL longer than 1400 bytes, `packetize_nal`
emits `⌈(len-1)/1398⌉` FU-A packets; packet `i` is the 12-byte RTP header
(sequence advancing by one per fragment, marker only on the last fragment
of the last NAL) followed by the FU indicator `(h & 0x60) | 28` — not the
claimed `(h & 0xE0) | 28` — the FU header `(S<<7) | (E<<6) | (h & 0x1F)`
with S set only on the first and E only on the last fragment, and the
`i`-th consecutive 1398-byte chunk of `nal[1..]`. -/
theorem c7_fua_packetization (p : RtpPacketizer) (nal : List Nat) (lastN : Bool)
    (hlen : 1400 < nal.length) (hseq : p.sequence < 65536) :
    (packetize_nal p nal lastN).1.length = (nal.length - 1 + 1397) / 1398
    ∧ (∀ i, i < (nal.length - 1 + 1397) / 1398 →
        (packetize_nal p nal lastN).1.getD i [] =
          (mkHeader p.ssrc ((p.sequence + i) % 65536) p.timestamp
              (decide (i = (nal.length - 1 + 1397) / 1398 - 1) && lastN)).serialize
            ++ [(nal.getD 0 0 &&& 96) ||| 28,
                (bite (decide (i = 0)) <<< 7) |||
                  (bite (decide (i = (nal.length - 1 + 1397) / 1398 - 1)) <<< 6) |||
                  (nal.getD 0 0 &&& 31)]
            ++ ((nal.drop 1).drop (1398 * i)).take 1398)
    ∧ (packetize_nal p nal lastN).2 =
        { p with sequence := (p.sequence + (nal.length - 1 + 1397) / 1398) % 65536 } := by
  have hK : (rustChunks 1398 (nal.drop 1)).length = (nal.length - 1 + 1397) / 1398 := by
    rw [rustChunks_length 1398 (by omega) (nal.drop 1).length (nal.drop 1) (le_refl _)]
    rw [List.length_drop]
  have hb := packetize_nal_fua p nal lastN hlen hseq
  rw [hb]
  refine ⟨?_, ?_, ?_⟩
  · show (genFuaPackets _ _ _ _ _ _ _ _ _).length = _
    rw [genFua_length, hK]
  · intro i hi
    show (genFuaPackets _ _ _ _ _ _ _ _ _).getD i [] = _
    rw [genFua_getD p.ssrc p.timestamp ((nal.getD 0 0 &&& 96) ||| 28) (nal.getD 0 0 &&& 31)
      (rustChunks 1398 (nal.drop 1)).length lastN (rustChunks 1398 (nal.drop 1))
      p.sequence 0 i hseq (by rw [hK]; exact hi)]
    simp only [Nat.zero_add]
    rw [hK]
    rw [rustChunks_getD 1398 (by omega) (nal.drop 1).length (nal.drop 1) i (le_refl _)]
  · dsimp only
    rw [hK]

/-- C7 witness: the S2 instance — a 3000-byte NAL of type 1 yields
`⌈2999/1398⌉ = 3` FU-A packets. -/
theorem c7_witness :
    1400 < (1 :: List.replicate 2999 7 : List Nat).length
    ∧ (packetize_nal ⟨0, 0, 0, 90000⟩ (1 :: List.replicate 2999 7) true).1.length = 3 :=
  ⟨by simp only [List.length_cons, List.length_replicate]; omega,
   ((c7_fua_packetization ⟨0, 0, 0, 90000⟩ (1 :: List.replicate 2999 7) true
       (by simp only [List.length_cons, List.length_replicate]; omega) (by decide)).1).trans
     (by simp only [List.length_cons, List.length_replicate])⟩

/-! ## NAL splitter lemmas -/

theorem fnuLoop_fuel (data : List Nat) :
    ∀ f1 f2 i start units, data.length ≤ i + f1 → data.length ≤ i + f2 →
      fnuLoop data f1 i start units = fnuLoop data f2 i start units := by
  intro f1
  induction f1 with
  | zero =>
    intro f2 i start units h1 h2
    cases f2 with
    | zero => rfl
    | succ f2 =>
      show _ = fnuLoop data (f2 + 1) i start units
      conv_rhs => unfold fnuLoop
      rw [if_neg (by omega)]
      rfl
  | succ f1 ih =>
    intro f2 i start units h1 h2
    cases f2 with
    | zero =>
      conv_lhs => unfold fnuLoop
      rw [if_neg (by omega)]
      rfl
    | succ f2 =>
      unfold fnuLoop
      by_cases hc1 : i < data.length
      · rw [if_pos hc1, if_pos hc1]
        by_cases hc2 : i + 3 < data.length ∧ data.getD i 0 = 0 ∧ data.getD (i+1) 0 = 0
        · rw [if_pos hc2, if_pos hc2]
          by_cases hc3 : data.getD (i+2) 0 = 1
          · rw [if_pos hc3, if_pos hc3]
            exact ih f2 (i+3) i _ (by omega) (by omega)
          · rw [if_neg hc3, if_neg hc3]
            by_cases hc4 : i + 4 < data.length ∧ data.getD (i+2) 0 = 0
                ∧ data.getD (i+3) 0 = 1
            · rw [if_pos hc4, if_pos hc4]
              exact ih f2 (i+4) i _ (by omega) (by omega)
            · rw [if_neg hc4, if_neg hc4]
              exact ih f2 (i+1) start _ (by omega) (by omega)
        · rw [if_neg hc2, if_neg hc2]
          exact ih f2 (i+1) start _ (by omega) (by omega)
      · rw [if_neg hc1, if_neg hc1]

theorem fnu_exit (data : List Nat) (f i start : Nat) (units : List (List Nat))
    (h : data.length ≤ i) :
    fnuLoop data f i start units = units ++ lastNal data start := by
  cases f with
  | zero => rfl
  | succ f =>
    conv_lhs => unfold fnuLoop
    rw [if_neg (by omega)]

theorem fnu_step_skip (data : List Nat) (i start : Nat) (units : List (List Nat))
    (hi : i < data.length) (hnm : ¬ nalMatchAt data i) :
    fnuLoop data (data.length + 1) i start units
      = fnuLoop data (data.length + 1) (i + 1) start units := by
  conv_lhs => unfold fnuLoop
  rw [if_pos hi]
  by_cases hc2 : i + 3 < data.length ∧ data.getD i 0 = 0 ∧ data.getD (i+1) 0 = 0
  · rw [if_pos hc2]
    rw [if_neg (fun h => hnm ⟨hc2.1, hc2.2.1, hc2.2.2, Or.inl h⟩)]
    rw [if_neg (fun h => hnm ⟨hc2.1, hc2.2.1, hc2.2.2, Or.inr h⟩)]
    exact fnuLoop_fuel data _ _ _ _ _ (by omega) (by omega)
  · rw [if_neg hc2]
    exact fnuLoop_fuel data _ _ _ _ _ (by omega) (by omega)

theorem fnu_skip_region (data : List Nat) :
    ∀ (d i start : Nat) (units : List (List Nat)),
      (∀ k, i ≤ k → k < i + d → ¬ nalMatchAt data k) →
      fnuLoop data (data.length + 1) i start units
        = fnuLoop data (data.length + 1) (i + d) start units := by
  intro d
  induction d with
  | zero => intro i start units _; rfl
  | succ d ih =>
    intro i start units hnm
    by_cases hi : i < data.length
    · rw [fnu_step_skip data i start units hi (hnm i (le_refl _) (by omega))]
      rw [ih (i + 1) start units (fun k hk1 hk2 => hnm k (by omega) (by omega))]
      rw [show i + 1 + d = i + (d + 1) by omega]
    · rw [fnu_exit data _ i start units (by omega),
          fnu_exit data _ (i + (d + 1)) start units (by omega)]

theorem fnu_step_match3 (data : List Nat) (i start : Nat) (units : List (List Nat))
    (hi : i < data.length) (hg : i + 3 < data.length)
    (h0 : data.getD i 0 = 0) (h1 : data.getD (i+1) 0 = 0)
    (h2 : data.getD (i+2) 0 = 1) :
    fnuLoop data (data.length + 1) i start units
      = fnuLoop data (data.length + 1) (i + 3) i (pushPrev data start i units) := by
  conv_lhs => unfold fnuLoop
  rw [if_pos hi, if_pos ⟨hg, h0, h1⟩, if_pos h2]
  exact fnuLoop_fuel data _ _ _ _ _ (by omega) (by omega)

theorem fnu_step_match4 (data : List Nat) (i start : Nat) (units : List (List Nat))
    (hi : i < data.length) (hg : i + 3 < data.length)
    (h0 : data.getD i 0 = 0) (h1 : data.getD (i+1) 0 = 0)
    (h2 : data.getD (i+2) 0 = 0) (hg4 : i + 4 < data.length)
    (h3 : data.getD (i+3) 0 = 1) :
    fnuLoop data (data.length + 1) i start units
      = fnuLoop data (data.length + 1) (i + 4) i (pushPrev data start i units) := by
  conv_lhs => unfold fnuLoop
  rw [if_pos hi, if_pos ⟨hg, h0, h1⟩, if_neg (by rw [h2]; omega), if_pos ⟨hg4, h2, h3⟩]
  exact fnuLoop_fuel data _ _ _ _ _ (by omega) (by omega)

theorem getLast?_eq_getD (n : List Nat) (h : n ≠ []) :
    n.getLast? = some (n.getD (n.length - 1) 0) := by
  rw [List.getLast?_eq_getElem?, List.getD_eq_getElem?_getD]
  rw [List.getElem?_eq_getElem (by have := List.length_pos.mpr h; omega)]
  rfl

theorem seg_getD_code (pre code n rest : List Nat) (j : Nat) (hj : j < code.length) :
    (pre ++ code ++ n ++ rest).getD (pre.length + j) 0 = code.getD j 0 := by
  rw [List.getD_append _ _ _ _ (by simp only [List.length_append]; omega),
      List.getD_append _ _ _ _ (by simp only [List.length_append]; omega),
      List.getD_append_right _ _ _ _ (by omega)]
  congr 1
  omega

theorem seg_getD_n (pre code n rest : List Nat) (r : Nat) (hr : r < n.length) :
    (pre ++ code ++ n ++ rest).getD (pre.length + code.length + r) 0 = n.getD r 0 := by
  rw [List.getD_append _ _ _ _ (by simp only [List.length_append]; omega),
      List.getD_append_right _ _ _ _ (by simp only [List.length_append]; omega)]
  congr 1
  simp only [List.length_append]
  omega

theorem seg_getD_rest (pre code n rest : List Nat) (r : Nat) :
    (pre ++ code ++ n ++ rest).getD (pre.length + code.length + n.length + r) 0
      = rest.getD r 0 := by
  rw [List.getD_append_right _ _ _ _ (by simp only [List.length_append]; omega)]
  congr 1
  simp only [List.length_append]
  omega

theorem seg_noMatch (pre code n rest : List Nat) (hvn : ValidNal n)
    (hrest : rest = [] ∨ ∃ b t, rest = startCode b ++ t)
    (r : Nat) (hr : r < n.length) :
    ¬ nalMatchAt (pre ++ code ++ n ++ rest) (pre.length + code.length + r) := by
  obtain ⟨hne, hlast, hwin⟩ := hvn
  have hm : 1 ≤ n.length := List.length_pos.mpr hne
  have hlast' : n.getD (n.length - 1) 0 ≠ 0 := by
    intro h
    exact hlast (by rw [getLast?_eq_getD n hne, h])
  have hrest01 : rest = [] ∨ (rest.getD 0 0 = 0 ∧ rest.getD 1 0 = 0) := by
    rcases hrest with h | ⟨b, t, h⟩
    · exact Or.inl h
    · right
      subst h
      cases b <;> exact ⟨rfl, rfl⟩
  have hlen : (pre ++ code ++ n ++ rest).length
      = pre.length + code.length + n.length + rest.length := by
    simp only [List.length_append]
  intro hmatch
  obtain ⟨hguard, h0, h1, hcode⟩ := hmatch
  rw [seg_getD_n pre code n rest r hr] at h0
  rw [hlen] at hguard
  rcases Nat.lt_or_ge r (n.length - 1) with hrm | hrm
  · have h1' : n.getD (r + 1) 0 = 0 := by
      rw [show pre.length + code.length + r + 1 = pre.length + code.length + (r + 1) by omega,
          seg_getD_n pre code n rest (r + 1) (by omega)] at h1
      exact h1
    rcases hcode with hc3 | ⟨hg4, hz, ho⟩
    · rcases Nat.lt_or_ge (r + 2) n.length with hr2 | hr2
      · rw [show pre.length + code.length + r + 2 = pre.length + code.length + (r + 2) by omega,
            seg_getD_n pre code n rest (r + 2) hr2] at hc3
        exact hwin r (by omega) ⟨h0, h1', hc3⟩
      · rw [show pre.length + code.length + r + 2
              = pre.length + code.length + n.length + (r + 2 - n.length) by omega,
            seg_getD_rest] at hc3
        rcases hrest01 with he | ⟨hz0, _⟩
        · have h0' : rest.length = 0 := by rw [he]; rfl
          omega
        · have hr2' : r + 2 - n.length = 0 := by omega
          rw [hr2', hz0] at hc3
          omega
    · rw [hlen] at hg4
      rcases Nat.lt_or_ge (r + 3) n.length with hr3 | hr3
      · have hz' : n.getD (r + 2) 0 = 0 := by
          rw [show pre.length + code.length + r + 2
                = pre.length + code.length + (r + 2) by omega,
              seg_getD_n pre code n rest (r + 2) (by omega)] at hz
          exact hz
        have ho' : n.getD (r + 1 + 1 + 1) 0 = 1 := by
          rw [show pre.length + code.length + r + 3
                = pre.length + code.length + (r + 3) by omega,
              seg_getD_n pre code n rest (r + 3) hr3] at ho
          exact ho
        exact hwin (r + 1) (by omega) ⟨h1', hz', ho'⟩
      · rcases Nat.lt_or_ge (r + 2) n.length with hr2 | hr2
        · rw [show pre.length + code.length + r + 3
                = pre.length + code.length + n.length + (r + 3 - n.length) by omega,
              seg_getD_rest] at ho
          rcases hrest01 with he | ⟨hz0, _⟩
          · have h0' : rest.length = 0 := by rw [he]; rfl
            omega
          · have hr3' : r + 3 - n.length = 0 := by omega
            rw [hr3', hz0] at ho
            omega
        · rw [show pre.length + code.length + r + 3
                = pre.length + code.length + n.length + (r + 3 - n.length) by omega,
              seg_getD_rest] at ho
          rcases hrest01 with he | ⟨_, hz1⟩
          · have h0' : rest.length = 0 := by rw [he]; rfl
            omega
          · have hr3' : r + 3 - n.length = 1 := by omega
            rw [hr3', hz1] at ho
            omega
  · have hre : r = n.length - 1 := by omega
    rw [hre] at h0
    exact hlast' h0

theorem seg_nalStartAt (pre : List Nat) (b : Bool) (n rest : List Nat) :
    nalStartAt (pre ++ startCode b ++ n ++ rest) pre.length
      = pre.length + (startCode b).length := by
  have e0 : (pre ++ startCode b ++ n ++ rest).getD pre.length 0 = (startCode b).getD 0 0 := by
    have h := seg_getD_code pre (startCode b) n rest 0 (by cases b <;> simp [startCode])
    rwa [Nat.add_zero] at h
  have e1 : (pre ++ startCode b ++ n ++ rest).getD (pre.length + 1) 0
      = (startCode b).getD 1 0 :=
    seg_getD_code pre (startCode b) n rest 1 (by cases b <;> simp [startCode])
  have e2 : (pre ++ startCode b ++ n ++ rest).getD (pre.length + 2) 0
      = (startCode b).getD 2 0 :=
    seg_getD_code pre (startCode b) n rest 2 (by cases b <;> simp [startCode])
  unfold nalStartAt
  cases b with
  | false =>
    have e3 : (pre ++ startCode false ++ n ++ rest).getD (pre.length + 3) 0
        = (startCode false).getD 3 0 :=
      seg_getD_code pre (startCode false) n rest 3 (by simp [startCode])
    have hlen4 : pre.length + 4 ≤ (pre ++ startCode false ++ n ++ rest).length := by
      have hc4 : (startCode false).length = 4 := rfl
      simp only [List.length_append, hc4]
      omega
    rw [if_neg (by
      intro h
      rw [e2] at h
      exact absurd h.2.2 (by decide))]
    rw [if_pos ⟨hlen4, by rw [e0]; rfl, by rw [e1]; rfl, by rw [e2]; rfl, by rw [e3]; rfl⟩]
    rfl
  | true =>
    rw [if_pos ⟨by rw [e0]; rfl, by rw [e1]; rfl, by rw [e2]; rfl⟩]
    rfl

theorem seg_pushPrev (pre : List Nat) (b : Bool) (n rest : List Nat)
    (units : List (List Nat)) (hm : 1 ≤ n.length) :
    pushPrev (pre ++ startCode b ++ n ++ rest) pre.length
        (pre.length + (startCode b).length + n.length) units
      = units ++ [n] := by
  have hslice : listSlice (pre ++ startCode b ++ n ++ rest)
      (pre.length + (startCode b).length)
      (pre.length + (startCode b).length + n.length) = n := by
    unfold listSlice
    rw [show pre ++ startCode b ++ n ++ rest = (pre ++ startCode b) ++ (n ++ rest) by
      simp [List.append_assoc]]
    rw [show pre.length + (startCode b).length = (pre ++ startCode b).length from
      (List.length_append _ _).symm]
    rw [List.drop_left]
    rw [show (pre ++ startCode b).length + n.length - (pre ++ startCode b).length
          = n.length by omega]
    exact List.take_left _ _
  have hcl : (startCode b).length = 3 ∨ (startCode b).length = 4 := by
    cases b
    · right; rfl
    · left; rfl
  unfold pushPrev
  rw [if_pos ⟨by omega, by omega⟩]
  rw [if_pos (by omega)]
  rw [seg_nalStartAt]
  rw [if_pos (by omega)]
  rw [hslice]

theorem encodeAU_cons (b : Bool) (n : List Nat) (l : List (Bool × List Nat)) :
    encodeAU ((b, n) :: l) = (startCode b ++ n) ++ encodeAU l := rfl

theorem fnuSeg : ∀ (l' : List (Bool × List Nat)) (pre : List Nat) (b : Bool) (n : List Nat)
    (units : List (List Nat)),
    ValidNal n → (∀ q ∈ l', ValidNal q.2) →
    fnuLoop (pre ++ startCode b ++ n ++ encodeAU l')
        ((pre ++ startCode b ++ n ++ encodeAU l').length + 1)
        (pre.length + (startCode b).length) pre.length units
      = units ++ [n] ++ l'.map Prod.snd := by
  intro l'
  induction l' with
  | nil =>
    intro pre b n units hvn _
    have hm : 1 ≤ n.length := List.length_pos.mpr hvn.1
    have hE : encodeAU ([] : List (Bool × List Nat)) = [] := rfl
    have hlen : (pre ++ startCode b ++ n ++ encodeAU ([] : List (Bool × List Nat))).length
        = pre.length + (startCode b).length + n.length := by
      simp only [List.length_append, hE, List.length_nil]
      omega
    rw [fnu_skip_region _ n.length _ _ _ (fun k hk1 hk2 => by
      have hr := seg_noMatch pre (startCode b) n (encodeAU []) hvn (Or.inl hE)
        (k - (pre.length + (startCode b).length)) (by omega)
      rw [show pre.length + (startCode b).length
            + (k - (pre.length + (startCode b).length)) = k by omega] at hr
      exact hr)]
    rw [fnu_exit _ _ _ _ _ (by omega)]
    unfold lastNal
    rw [if_pos (by omega)]
    rw [seg_nalStartAt]
    rw [if_pos (by omega)]
    rw [show pre ++ startCode b ++ n ++ encodeAU ([] : List (Bool × List Nat))
          = (pre ++ startCode b) ++ (n ++ encodeAU []) by simp [List.append_assoc]]
    rw [show pre.length + (startCode b).length = (pre ++ startCode b).length from
      (List.length_append _ _).symm]
    rw [List.drop_left, hE, List.append_nil]
    simp
  | cons q l'' ih =>
    obtain ⟨b', n'⟩ := q
    intro pre b n units hvn hl'
    have hvn' : ValidNal n' := hl' (b', n') (List.mem_cons_self _ _)
    have hl'' : ∀ q ∈ l'', ValidNal q.2 := fun q hq => hl' q (List.mem_cons_of_mem _ hq)
    have hm : 1 ≤ n.length := List.length_pos.mpr hvn.1
    have hm' : 1 ≤ n'.length := List.length_pos.mpr hvn'.1
    rw [encodeAU_cons]
    have hrest : (startCode b' ++ n') ++ encodeAU l''
        = startCode b' ++ (n' ++ encodeAU l'') := List.append_assoc _ _ _
    have hlen : (pre ++ startCode b ++ n ++ ((startCode b' ++ n') ++ encodeAU l'')).length
        = pre.length + (startCode b).length + n.length
          + ((startCode b').length + n'.length + (encodeAU l'').length) := by
      simp only [List.length_append]
    rw [fnu_skip_region _ n.length _ _ _ (fun k hk1 hk2 => by
      have hr := seg_noMatch pre (startCode b) n ((startCode b' ++ n') ++ encodeAU l'') hvn
        (Or.inr ⟨b', n' ++ encodeAU l'', hrest⟩)
        (k - (pre.length + (startCode b).length)) (by omega)
      rw [show pre.length + (startCode b).length
            + (k - (pre.length + (startCode b).length)) = k by omega] at hr
      exact hr)]
    have e0 : (pre ++ startCode b ++ n ++ ((startCode b' ++ n') ++ encodeAU l'')).getD
        (pre.length + (startCode b).length + n.length) 0 = 0 := by
      have h := seg_getD_rest pre (startCode b) n ((startCode b' ++ n') ++ encodeAU l'') 0
      rw [Nat.add_zero] at h
      rw [h]
      cases b' <;> rfl
    have e1 : (pre ++ startCode b ++ n ++ ((startCode b' ++ n') ++ encodeAU l'')).getD
        (pre.length + (startCode b).length + n.length + 1) 0 = 0 := by
      rw [seg_getD_rest]
      cases b' <;> rfl
    cases b' with
    | true =>
      have hcl' : (startCode true).length = 3 := rfl
      have e2 : (pre ++ startCode b ++ n ++ ((startCode true ++ n') ++ encodeAU l'')).getD
          (pre.length + (startCode b).length + n.length + 2) 0 = 1 := by
        rw [seg_getD_rest]
        rfl
      rw [fnu_step_match3 _ _ _ _ (by omega) (by omega) e0 e1 e2]
      rw [seg_pushPrev pre b n ((startCode true ++ n') ++ encodeAU l'') units hm]
      have hIH := ih (pre ++ startCode b ++ n) true n' (units ++ [n]) hvn' hl''
      simp only [List.append_assoc] at hIH ⊢
      rw [show pre.length + (startCode b).length + n.length + 3
            = (pre ++ (startCode b ++ n)).length + (startCode true).length by
          simp only [List.length_append, hcl']; omega]
      rw [show pre.length + (startCode b).length + n.length
            = (pre ++ (startCode b ++ n)).length by
          simp only [List.length_append]; omega]
      exact hIH.trans (by simp)
    | false =>
      have hcl' : (startCode false).length = 4 := rfl
      have e2 : (pre ++ startCode b ++ n ++ ((startCode false ++ n') ++ encodeAU l'')).getD
          (pre.length + (startCode b).length + n.length + 2) 0 = 0 := by
        rw [seg_getD_rest]
        rfl
      have e3 : (pre ++ startCode b ++ n ++ ((startCode false ++ n') ++ encodeAU l'')).getD
          (pre.length + (startCode b).length + n.length + 3) 0 = 1 := by
        rw [seg_getD_rest]
        rfl
      rw [fnu_step_match4 _ _ _ _ (by omega) (by omega) e0 e1 e2 (by omega) e3]
      rw [seg_pushPrev pre b n ((startCode false ++ n') ++ encodeAU l'') units hm]
      have hIH := ih (pre ++ startCode b ++ n) false n' (units ++ [n]) hvn' hl''
      simp only [List.append_assoc] at hIH ⊢
      rw [show pre.length + (startCode b).length + n.length + 4
            = (pre ++ (startCode b ++ n)).length + (startCode false).length by
          simp only [List.length_append, hcl']; omega]
      rw [show pre.length + (startCode b).length + n.length
            = (pre ++ (startCode b ++ n)).length by
          simp only [List.length_append]; omega]
      exact hIH.trans (by simp)

theorem find_nal_units_encode (l : List (Bool × List Nat))
    (hv : ∀ q ∈ l, ValidNal q.2) :
    find_nal_units (encodeAU l) = l.map Prod.snd := by
  cases l with
  | nil => rfl
  | cons q l' =>
    obtain ⟨b, n⟩ := q
    have hvn : ValidNal n := hv (b, n) (List.mem_cons_self _ _)
    have hl' : ∀ q ∈ l', ValidNal q.2 := fun q hq => hv q (List.mem_cons_of_mem _ hq)
    have hm : 1 ≤ n.length := List.length_pos.mpr hvn.1
    unfold find_nal_units
    rw [show encodeAU ((b, n) :: l') = [] ++ startCode b ++ n ++ encodeAU l' from rfl]
    have hlen : ([] ++ startCode b ++ n ++ encodeAU l').length
        = (startCode b).length + n.length + (encodeAU l').length := by
      simp only [List.length_append, List.length_nil]
      omega
    cases b with
    | true =>
      have hcl : (startCode true).length = 3 := rfl
      have h00 : ([] ++ startCode true ++ n ++ encodeAU l').getD 0 0 = 0 := rfl
      have h01 : ([] ++ startCode true ++ n ++ encodeAU l').getD (0 + 1) 0 = 0 := rfl
      have h02 : ([] ++ startCode true ++ n ++ encodeAU l').getD (0 + 2) 0 = 1 := rfl
      rw [fnu_step_match3 ([] ++ startCode true ++ n ++ encodeAU l') 0 0 []
        (by omega) (by omega) h00 h01 h02]
      rw [show pushPrev ([] ++ startCode true ++ n ++ encodeAU l') 0 0 [] = [] from by
        unfold pushPrev
        rw [if_neg (by omega)]]
      have hseg := fnuSeg l' [] true n [] hvn hl'
      rw [show ([] : List Nat).length = 0 from rfl, hcl] at hseg
      exact hseg.trans (by simp)
    | false =>
      have hcl : (startCode false).length = 4 := rfl
      have h00 : ([] ++ startCode false ++ n ++ encodeAU l').getD 0 0 = 0 := rfl
      have h01 : ([] ++ startCode false ++ n ++ encodeAU l').getD (0 + 1) 0 = 0 := rfl
      have h02 : ([] ++ startCode false ++ n ++ encodeAU l').getD (0 + 2) 0 = 0 := rfl
      have h03 : ([] ++ startCode false ++ n ++ encodeAU l').getD (0 + 3) 0 = 1 := rfl
      rw [fnu_step_match4 ([] ++ startCode false ++ n ++ encodeAU l') 0 0 []
        (by omega) (by omega) h00 h01 h02 (by omega) h03]
      rw [show pushPrev ([] ++ startCode false ++ n ++ encodeAU l') 0 0 [] = [] from by
        unfold pushPrev
        rw [if_neg (by omega)]]
      have hseg := fnuSeg l' [] false n [] hvn hl'
      rw [show ([] : List Nat).length = 0 from rfl, hcl] at hseg
      exact hseg.trans (by simp)

/-! ## Claim C5: NAL splitter -/

/-- C5 counterexample: in `00 00 01 AA 00 | 00 00 00 01 BB` the byte `00`
after `AA` is zero padding lying between the end of the first NAL and the
4-byte start code, yet the splitter emits `[AA, 00]` — the padding byte is
included in the emitted NAL, contradicting the claim's "never includes
trailing zero-padding bytes". -/
theorem c5_counterexample :
    find_nal_units [0, 0, 1, 170, 0, 0, 0, 0, 1, 187] = [[170, 0], [187]]
    ∧ [[170, 0], [187]] ≠ ([[170], [187]] : List (List Nat)) := by
  decide

/-- C5 (corrected): on padding-free Annex-B input the splitter is exactly
right: for every sequence of well-formed NALs (nonempty, not
zero-terminated, no interior `00 00 01`), each prefixed by a 3-byte or
4-byte start code with no padding in between, `find_nal_units` returns
exactly the NAL payloads, in order, with the start-code bytes excluded.
Zero padding before a following start code, however, is appended to the
preceding NAL (see the counterexample), so the claim's padding sentence is
wrong. -/
theorem c5_splitter (l : List (Bool × List Nat)) (hv : ∀ q ∈ l, ValidNal q.2) :
    find_nal_units (encodeAU l) = l.map Prod.snd :=
  find_nal_units_encode l hv

/-- C5 witness: a 3-byte-prefixed NAL `[AA]` followed by a 4-byte-prefixed
NAL `[BB]` round-trips. -/
theorem c5_witness :
    (∀ q ∈ ([(true, [170]), (false, [187])] : List (Bool × List Nat)), ValidNal q.2)
    ∧ find_nal_units (encodeAU [(true, [170]), (false, [187])]) = [[170], [187]] :=
  ⟨by decide,
   (c5_splitter [(true, [170]), (false, [187])] (by decide)).trans (by decide)⟩

/-! ## Claim C6: sequence-gap handling -/

/-- C6 (confirmed): (1) whenever `expected_sequence` is set and the arriving
packet's sequence number differs from it, the depacketize step behaves
exactly as on the same state with `fu_buffer` cleared and `fu_started`
false — the gap handling touches nothing else (in particular not
`current_frame`); (2) consequently a FU-A fragmented NAL with a dropped
middle fragment is never emitted: feeding all remaining fragments of a
single fragmented NAL to a fresh depacketizer produces no output at all and
leaves an empty pending frame. -/
theorem c6_seq_gap :
    (∀ (s : RtpDepacketizer) (e seq ts : Nat) (m : Bool) (payload : List Nat),
       s.expected_sequence = some e → seq ≠ e →
       dstep s seq ts m payload
         = dstep { s with fu_buffer := [], fu_started := false } seq ts m payload)
    ∧ ∀ (p : RtpPacketizer) (nal : List Nat) (j : Nat),
        1400 < nal.length → p.sequence < 65536 → p.timestamp < 2 ^ 32 →
        1 ≤ j → j < (nal.length - 1 + 1397) / 1398 - 1 →
        (runDep RtpDepacketizer.new
            ((packetize_nal p nal true).1.take j
              ++ (packetize_nal p nal true).1.drop (j + 1))).1
          = List.replicate ((nal.length - 1 + 1397) / 1398 - 1) none
        ∧ (runDep RtpDepacketizer.new
            ((packetize_nal p nal true).1.take j
              ++ (packetize_nal p nal true).1.drop (j + 1))).2.current_frame = [] := by
  constructor
  · intro s e seq ts m payload he hg
    exact dstep_gap s e seq ts m payload he hg
  · intro p nal j hlen hseq hts hj hjK
    obtain ⟨j', rfl⟩ : ∃ j', j = j' + 1 := ⟨j - 1, by omega⟩
    have hK : (rustChunks 1398 (nal.drop 1)).length = (nal.length - 1 + 1397) / 1398 := by
      rw [rustChunks_length 1398 (by omega) (nal.drop 1).length (nal.drop 1) (le_refl _),
          List.length_drop]
    have hnt : (nal.getD 0 0 &&& 31) < 32 := Nat.lt_succ_of_le Nat.and_le_right
    rw [packetize_nal_fua p nal true hlen hseq]
    dsimp only
    rw [genFua_take]
    rw [genFua_drop p.ssrc p.timestamp _ _ _ true _ p.sequence 0 (j' + 1 + 1) hseq]
    rcases hch : rustChunks 1398 (nal.drop 1) with _ | ⟨c0, cs'⟩
    · rw [hch] at hK
      simp only [List.length_nil] at hK
      omega
    rw [hch] at hK
    simp only [List.length_cons] at hK
    rw [List.take_succ_cons, List.drop_succ_cons]
    rcases hdrop : cs'.drop (j' + 1) with _ | ⟨cB, csB⟩
    · have := congrArg List.length hdrop
      rw [List.length_drop] at this
      simp only [List.length_nil] at this
      omega
    have hcsB : cs'.length - (j' + 1) = csB.length + 1 := by
      have := congrArg List.length hdrop
      rw [List.length_drop] at this
      simpa using this
    rw [runDep_append]
    rw [genFua_cons, runDep_cons]
    rw [Nat.zero_add, Nat.zero_add]
    rw [depacketize_fua_frag RtpDepacketizer.new p.ssrc p.sequence p.timestamp _
        ((nal.getD 0 0 &&& 96) ||| 28) _ c0 hseq hts (fromByte_fuInd _)]
    have hS0 : ((((bite (decide ((0:Nat) = 0)) <<< 7)
        ||| (bite (decide ((0:Nat) = (c0 :: cs').length - 1)) <<< 6)
        ||| (nal.getD 0 0 &&& 31)) >>> 7) &&& 1) = 1 := by
      rw [(fuhdr_bits _ hnt _ _).1]
      rfl
    have hE0 : ((((bite (decide ((0:Nat) = 0)) <<< 7)
        ||| (bite (decide ((0:Nat) = (c0 :: cs').length - 1)) <<< 6)
        ||| (nal.getD 0 0 &&& 31)) >>> 6) &&& 1) ≠ 1 := by
      rw [(fuhdr_bits _ hnt _ _).2,
          show decide ((0:Nat) = (c0 :: cs').length - 1) = false from
            decide_eq_false (by simp only [List.length_cons]; omega)]
      decide
    rw [fuaStep_first p.sequence p.timestamp _ _ _ c0 hS0 hE0]
    rw [livePrefix p.ssrc p.timestamp ((nal.getD 0 0 &&& 96) ||| 28) (nal.getD 0 0 &&& 31)
        ((c0 :: cs').length) true hts (fromByte_fuInd _) hnt (cs'.take j') 1
        ((p.sequence + 1) % 65536) _ (by omega)
        (by rw [List.length_take]; simp only [List.length_cons]; omega)
        (Nat.mod_lt _ (by omega))]
    rw [List.length_take, Nat.min_eq_left (by omega)]
    rw [genFua_cons, runDep_cons]
    rw [depacketize_fua_frag _ p.ssrc ((p.sequence + (j' + 1 + 1)) % 65536) p.timestamp _
        ((nal.getD 0 0 &&& 96) ||| 28) _ cB (Nat.mod_lt _ (by omega)) hts (fromByte_fuInd _)]
    have hSB : ((((bite (decide (j' + 1 + 1 = 0)) <<< 7)
        ||| (bite (decide (j' + 1 + 1 = (c0 :: cs').length - 1)) <<< 6)
        ||| (nal.getD 0 0 &&& 31)) >>> 7) &&& 1) ≠ 1 := by
      rw [(fuhdr_bits _ hnt _ _).1,
          show decide (j' + 1 + 1 = 0) = false from decide_eq_false (by omega)]
      decide
    rw [fuaStep_gap_dead _ (((p.sequence + 1) % 65536 + j') % 65536)
        ((p.sequence + (j' + 1 + 1)) % 65536) p.timestamp _ _ _ cB rfl (by omega) hSB
        rfl rfl]
    rw [deadFeedClean p.ssrc p.timestamp ((nal.getD 0 0 &&& 96) ||| 28)
        (nal.getD 0 0 &&& 31) ((c0 :: cs').length) true hts (fromByte_fuInd _) hnt csB
        (j' + 1 + 1 + 1) (((p.sequence + (j' + 1 + 1)) % 65536 + 1) % 65536)
        (by omega) (Nat.mod_lt _ (by omega))]
    constructor
    · show (none :: List.replicate j' none) ++ (none :: List.replicate csB.length none) = _
      rw [show (nal.length - 1 + 1397) / 1398 - 1 = (j' + 1) + (csB.length + 1) by omega,
          List.replicate_add, List.replicate_succ, List.replicate_succ]
    · rfl

/-- C6 witness: a 2800-byte NAL fragments into 3 FU-A packets; dropping the
middle one and feeding the remaining two to a fresh depacketizer yields two
`none` results — the NAL is never emitted. -/
theorem c6_witness :
    1400 < (7 :: List.replicate 2799 1 : List Nat).length
    ∧ (runDep RtpDepacketizer.new
        ((packetize_nal ⟨0, 0, 0, 90000⟩ (7 :: List.replicate 2799 1) true).1.take 1
          ++ (packetize_nal ⟨0, 0, 0, 90000⟩ (7 :: List.replicate 2799 1) true).1.drop 2)).1
      = List.replicate 2 none :=
  ⟨by rw [List.length_cons, List.length_replicate]; decide,
   ((c6_seq_gap.2 ⟨0, 0, 0, 90000⟩ (7 :: List.replicate 2799 1) 1
       (by rw [List.length_cons, List.length_replicate]; decide)
       (by decide) (by decide) (by decide)
       (by rw [List.length_cons, List.length_replicate]; decide)).1).trans
     (by rw [List.length_cons, List.length_replicate])⟩

/-! ## Round-trip lemmas (packetize → depacketize) -/

theorem fromByte_ne_fuA (v : Nat) (h : v &&& 31 ≠ 28) :
    NalType.fromByte v ≠ NalType.fuA := by
  unfold NalType.fromByte
  split <;> simp_all

theorem depacketize_nf_frag (D : RtpDepacketizer) (ssrc s' ts : Nat) (mk : Bool)
    (body : List Nat) (hs : s' < 65536) (ht : ts < 2 ^ 32) (hne : body ≠ []) :
    depacketize D ((mkHeader ssrc s' ts mk).serialize ++ body) = dstep D s' ts mk body := by
  rw [depacketize_eq_dstep D _ (mkHeader (ssrc % 2 ^ 32) s' ts mk)
      (parse_serialize ssrc s' ts mk body hs ht) rfl
      (by rw [serialize_append_drop]; exact hne)]
  rw [serialize_append_drop]
  rfl

theorem nfStep_mid (seq ts : Nat) (m : Bool) (payload cf : List Nat)
    (hnf : NalType.fromByte (payload.getD 0 0) ≠ NalType.fuA) :
    dstep ⟨some seq, cf, ts, [], false⟩ seq ts m payload
      = (if m then some (cf ++ [0, 0, 0, 1] ++ payload) else none,
         ⟨some ((seq + 1) % 65536),
          if m then [] else cf ++ [0, 0, 0, 1] ++ payload, ts, [], false⟩) := by
  unfold dstep
  rcases hfb : NalType.fromByte (payload.getD 0 0) <;> try (exact absurd hfb hnf)
  all_goals cases m <;> simp_all

theorem nfStep_first (seq ts : Nat) (m : Bool) (payload : List Nat)
    (hnf : NalType.fromByte (payload.getD 0 0) ≠ NalType.fuA) :
    dstep RtpDepacketizer.new seq ts m payload
      = (if m then some ([] ++ [0, 0, 0, 1] ++ payload) else none,
         ⟨some ((seq + 1) % 65536),
          if m then [] else [] ++ [0, 0, 0, 1] ++ payload, ts, [], false⟩) := by
  unfold dstep RtpDepacketizer.new
  rcases hfb : NalType.fromByte (payload.getD 0 0) <;> try (exact absurd hfb hnf)
  all_goals
    by_cases h0 : ts = 0 <;> cases m <;> simp_all

theorem fuaStep_start_mid (seq ts : Nat) (m : Bool) (fuInd fuHdr : Nat) (c cf : List Nat)
    (hS : (fuHdr >>> 7) &&& 1 = 1) (hE : (fuHdr >>> 6) &&& 1 ≠ 1) (hm : m = false) :
    fuaStep ⟨some seq, cf, ts, [], false⟩ seq ts m fuInd fuHdr c
      = (none, ⟨some ((seq + 1) % 65536), cf, ts,
                ((fuInd &&& 224) ||| (fuHdr &&& 31)) :: c, true⟩) := by
  subst hm
  rw [Nat.and_one_is_mod] at hS hE
  simp [fuaStep, hS, hE]

theorem fuaStep_cont_cf (seq ts : Nat) (m : Bool) (fuInd fuHdr : Nat) (c fb cf : List Nat)
    (hS : (fuHdr >>> 7) &&& 1 ≠ 1) (hE : (fuHdr >>> 6) &&& 1 ≠ 1) (hm : m = false) :
    fuaStep ⟨some seq, cf, ts, fb, true⟩ seq ts m fuInd fuHdr c
      = (none, ⟨some ((seq + 1) % 65536), cf, ts, fb ++ c, true⟩) := by
  subst hm
  rw [Nat.and_one_is_mod] at hS hE
  simp [fuaStep, hS, hE]

theorem fuaStep_last (seq ts : Nat) (m : Bool) (fuInd fuHdr : Nat) (c fb cf : List Nat)
    (hS : (fuHdr >>> 7) &&& 1 ≠ 1) (hE : (fuHdr >>> 6) &&& 1 = 1) :
    fuaStep ⟨some seq, cf, ts, fb, true⟩ seq ts m fuInd fuHdr c
      = (if m then some (cf ++ [0, 0, 0, 1] ++ (fb ++ c)) else none,
         ⟨some ((seq + 1) % 65536),
          if m then [] else cf ++ [0, 0, 0, 1] ++ (fb ++ c), ts, [], false⟩) := by
  rw [Nat.and_one_is_mod] at hS hE
  cases m <;> simp_all [fuaStep, hS, hE]

theorem dstep_fresh (seq ts : Nat) (m : Bool) (payload : List Nat) :
    dstep RtpDepacketizer.new seq ts m payload
      = dstep ⟨some seq, [], ts, [], false⟩ seq ts m payload := by
  unfold dstep RtpDepacketizer.new
  by_cases h0 : ts = 0 <;> simp [h0]

theorem rustChunks_flatten (n : Nat) (hn : 0 < n) :
    ∀ (k : Nat) (l : List α), l.length ≤ k → (rustChunks n l).flatten = l := by
  intro k
  induction k with
  | zero =>
    intro l hl
    have : l = [] := by
      cases l with
      | nil => rfl
      | cons x xs => simp at hl
    subst this
    rfl
  | succ k ih =>
    intro l hl
    cases hcl : l with
    | nil => rfl
    | cons x xs =>
      rw [← hcl, rustChunks_cons n hn l (by simp [hcl]), List.flatten_cons,
          ih (l.drop n) (by
            rw [hcl] at hl ⊢
            simp only [List.length_drop, List.length_cons] at hl ⊢
            omega)]
      exact List.take_append_drop n l

theorem packetize_nal_state (q : RtpPacketizer) (nal : List Nat) (b : Bool)
    (hs : q.sequence < 65536) :
    (packetize_nal q nal b).2.timestamp = q.timestamp
    ∧ (packetize_nal q nal b).2.sequence < 65536 := by
  by_cases h0 : nal = []
  · unfold packetize_nal
    rw [if_pos h0]
    exact ⟨rfl, hs⟩
  · by_cases h1 : nal.length ≤ MAX_RTP_PAYLOAD
    · unfold packetize_nal
      rw [if_neg h0, if_pos h1]
      exact ⟨rfl, Nat.mod_lt _ (by omega)⟩
    · rw [packetize_nal_fua q nal b (by omega) hs]
      exact ⟨rfl, Nat.mod_lt _ (by omega)⟩

theorem packetize_nal_count (q : RtpPacketizer) (nal : List Nat) (b : Bool)
    (h0 : nal ≠ []) (hs : q.sequence < 65536) :
    1 ≤ (packetize_nal q nal b).1.length := by
  by_cases h1 : nal.length ≤ MAX_RTP_PAYLOAD
  · unfold packetize_nal
    rw [if_neg h0, if_pos h1]
    simp
  · rw [packetize_nal_fua q nal b (by omega) hs]
    dsimp only
    rw [genFua_length]
    rw [rustChunks_length 1398 (by omega) (nal.drop 1).length (nal.drop 1) (le_refl _),
        List.length_drop]
    have hM : MAX_RTP_PAYLOAD = 1400 := rfl
    omega

theorem packFold (K : Nat) :
    ∀ (ns : List (List Nat)) (i : Nat) (acc : List (List Nat)) (q : RtpPacketizer),
      (List.enumFrom i ns).foldl
        (fun a inal =>
          (a.1 ++ (packetize_nal a.2 inal.2 (decide (inal.1 = K - 1))).1,
           (packetize_nal a.2 inal.2 (decide (inal.1 = K - 1))).2))
        (acc, q)
      = (acc ++ (packNals K q i ns).1, (packNals K q i ns).2) := by
  intro ns
  induction ns with
  | nil =>
    intro i acc q
    show (acc, q) = _
    rw [show packNals K q i [] = ([], q) from rfl, List.append_nil]
  | cons nal ns ih =>
    intro i acc q
    rw [show List.enumFrom i (nal :: ns) = (i, nal) :: List.enumFrom (i + 1) ns from rfl,
        List.foldl_cons]
    dsimp only
    rw [ih (i + 1)]
    rw [show packNals K q i (nal :: ns)
          = ((packetize_nal q nal (decide (i = K - 1))).1
              ++ (packNals K (packetize_nal q nal (decide (i = K - 1))).2 (i + 1) ns).1,
             (packNals K (packetize_nal q nal (decide (i = K - 1))).2 (i + 1) ns).2)
          from rfl]
    rw [List.append_assoc]

theorem packetize_packNals (p : RtpPacketizer) (data : List Nat) (ft : Nat) :
    packetize p data ft
      = ((packNals (find_nal_units data).length
            { p with timestamp := ft * p.clock_rate / 1000 % 2 ^ 32 } 0
            (find_nal_units data)).1,
         (packNals (find_nal_units data).length
            { p with timestamp := ft * p.clock_rate / 1000 % 2 ^ 32 } 0
            (find_nal_units data)).2) := by
  unfold packetize
  exact (packFold (find_nal_units data).length (find_nal_units data) 0 []
    { p with timestamp := ft * p.clock_rate / 1000 % 2 ^ 32 }).trans
    (by rw [List.nil_append])

theorem liveTail (ssrc ts fuInd ntype K : Nat) (lastN : Bool)
    (hts : ts < 2 ^ 32) (hfu : NalType.fromByte fuInd = NalType.fuA) (hnt : ntype < 32) :
    ∀ (cs : List (List Nat)) (j s : Nat) (fb cf : List Nat),
      1 ≤ j → j + cs.length = K → cs ≠ [] → s < 65536 →
      runDep ⟨some s, cf, ts, fb, true⟩ (genFuaPackets ssrc ts fuInd ntype K lastN s j cs)
        = (List.replicate (cs.length - 1) none
            ++ [if lastN then some (cf ++ [0, 0, 0, 1] ++ (fb ++ cs.flatten)) else none],
           ⟨some ((s + cs.length) % 65536),
            if lastN then [] else cf ++ [0, 0, 0, 1] ++ (fb ++ cs.flatten), ts, [], false⟩) := by
  intro cs
  induction cs with
  | nil => intro j s fb cf hj hK hne hs; exact absurd rfl hne
  | cons c cs ih =>
    intro j s fb cf hj hK hne hs
    have hbits := fuhdr_bits ntype hnt (decide (j = 0)) (decide (j = K - 1))
    have hS : (((bite (decide (j = 0)) <<< 7) ||| (bite (decide (j = K - 1)) <<< 6) ||| ntype)
        >>> 7) &&& 1 ≠ 1 := by
      rw [hbits.1, show decide (j = 0) = false from decide_eq_false (by omega)]
      decide
    cases hcs : cs with
    | nil =>
      subst hcs
      have hdec : decide (j = K - 1) = true := decide_eq_true (by
        simp only [List.length_cons, List.length_nil] at hK
        omega)
      have hE : (((bite (decide (j = 0)) <<< 7) ||| (bite (decide (j = K - 1)) <<< 6) ||| ntype)
          >>> 6) &&& 1 = 1 := by
        rw [hbits.2, hdec]
        decide
      rw [genFua_cons, runDep_cons,
          depacketize_fua_frag _ ssrc s ts _ fuInd _ c hs hts hfu]
      rw [hdec] at hS hE
      rw [hdec, Bool.true_and]
      rw [fuaStep_last s ts lastN fuInd _ c fb cf hS hE]
      rw [show genFuaPackets ssrc ts fuInd ntype K lastN ((s + 1) % 65536) (j + 1)
            ([] : List (List Nat)) = [] from rfl]
      rw [show (∀ D : RtpDepacketizer, runDep D [] = ([], D)) from fun _ => rfl]
      simp
    | cons c2 cs2 =>
      have hne2 : cs ≠ [] := by rw [hcs]; simp
      have hlen2 : 1 ≤ cs.length := by rw [hcs]; simp
      have hdec : decide (j = K - 1) = false := decide_eq_false (by
        simp only [List.length_cons] at hK
        omega)
      have hE : (((bite (decide (j = 0)) <<< 7) ||| (bite (decide (j = K - 1)) <<< 6) ||| ntype)
          >>> 6) &&& 1 ≠ 1 := by
        rw [hbits.2, hdec]
        decide
      rw [genFua_cons, runDep_cons,
          depacketize_fua_frag _ ssrc s ts _ fuInd _ c hs hts hfu]
      rw [hdec] at hS hE
      rw [hdec, Bool.false_and]
      rw [fuaStep_cont_cf s ts false fuInd _ c fb cf hS hE rfl]
      dsimp only
      rw [← hcs]
      rw [ih (j + 1) ((s + 1) % 65536) (fb ++ c) cf (by omega)
          (by simp only [List.length_cons] at hK ⊢; omega) hne2 (Nat.mod_lt _ (by omega))]
      simp only [List.length_cons]
      rw [show ((s + 1) % 65536 + cs.length) % 65536 = (s + (cs.length + 1)) % 65536 by omega]
      rw [show cs.length + 1 - 1 = cs.length from rfl]
      rw [show cs.length = cs.length - 1 + 1 by omega, List.replicate_succ]
      rw [List.flatten_cons, List.append_assoc]
      rw [show cs.length - 1 + 1 = cs.length by omega]
      simp [List.append_assoc]

theorem fuhdr_low : ∀ nt < 32, ∀ b1 b2 : Bool,
    ((bite b1 <<< 7) ||| (bite b2 <<< 6) ||| nt) &&& 31 = nt := by
  decide

theorem hdr_reconstruct : ∀ h < 128, (((h &&& 96) ||| 28) &&& 224) ||| (h &&& 31) = h := by
  decide

theorem runDep_nil (D : RtpDepacketizer) : runDep D [] = ([], D) := rfl

theorem packetize_nal_feed (q : RtpPacketizer) (nal : List Nat) (lastB : Bool)
    (D : RtpDepacketizer) (cf : List Nat)
    (hv : ValidNalRtp nal) (hseq : q.sequence < 65536) (hts : q.timestamp < 2 ^ 32)
    (hD : (D = RtpDepacketizer.new ∧ cf = [])
        ∨ D = ⟨some q.sequence, cf, q.timestamp, [], false⟩) :
    runDep D (packetize_nal q nal lastB).1
      = (List.replicate ((packetize_nal q nal lastB).1.length - 1) none
          ++ [if lastB then some (cf ++ [0, 0, 0, 1] ++ nal) else none],
         ⟨some (packetize_nal q nal lastB).2.sequence,
          if lastB then [] else cf ++ [0, 0, 0, 1] ++ nal, q.timestamp, [], false⟩) := by
  have hne : nal ≠ [] := hv.1.1
  by_cases hlen : nal.length ≤ MAX_RTP_PAYLOAD
  · have hpk : packetize_nal q nal lastB
        = ([(mkHeader q.ssrc q.sequence q.timestamp lastB).serialize ++ nal],
           { q with sequence := (q.sequence + 1) % 65536 }) := by
      unfold packetize_nal
      rw [if_neg hne, if_pos hlen]
      rfl
    rw [hpk]
    dsimp only
    rw [runDep_cons]
    rw [depacketize_nf_frag D q.ssrc q.sequence q.timestamp lastB nal hseq hts hne]
    have hnf : NalType.fromByte (nal.getD 0 0) ≠ NalType.fuA := fromByte_ne_fuA _ hv.2.2
    rcases hD with ⟨hD1, hcf⟩ | hD2
    · subst hD1
      subst hcf
      rw [dstep_fresh, nfStep_mid q.sequence q.timestamp lastB nal [] hnf]
      rw [runDep_nil]
      cases lastB <;> simp
    · subst hD2
      rw [nfStep_mid q.sequence q.timestamp lastB nal cf hnf]
      rw [runDep_nil]
      cases lastB <;> simp
  · rw [packetize_nal_fua q nal lastB (by omega) hseq]
    dsimp only
    have hnt : (nal.getD 0 0 &&& 31) < 32 := Nat.lt_succ_of_le Nat.and_le_right
    have hfu := fromByte_fuInd (nal.getD 0 0)
    have hKlen : (rustChunks 1398 (nal.drop 1)).length = (nal.length - 1 + 1397) / 1398 := by
      rw [rustChunks_length 1398 (by omega) (nal.drop 1).length (nal.drop 1) (le_refl _),
          List.length_drop]
    have hM : MAX_RTP_PAYLOAD = 1400 := rfl
    have hK2 : 2 ≤ (rustChunks 1398 (nal.drop 1)).length := by
      rw [hKlen]
      omega
    have hflat : (rustChunks 1398 (nal.drop 1)).flatten = nal.drop 1 :=
      rustChunks_flatten 1398 (by omega) (nal.drop 1).length (nal.drop 1) (le_refl _)
    have hcons : nal.getD 0 0 :: nal.drop 1 = nal := by
      cases nal with
      | nil => exact absurd rfl hne
      | cons a t => rfl
    rcases hch : rustChunks 1398 (nal.drop 1) with _ | ⟨c0, cs'⟩
    · rw [hch] at hK2
      simp at hK2
    rw [hch] at hK2 hflat
    simp only [List.length_cons] at hK2
    have hcs' : cs' ≠ [] := by
      intro h
      rw [h] at hK2
      simp at hK2
    rw [genFua_cons, runDep_cons]
    rw [depacketize_fua_frag D q.ssrc q.sequence q.timestamp _
        ((nal.getD 0 0 &&& 96) ||| 28) _ c0 hseq hts hfu]
    have hdec0 : decide ((0:Nat) = (c0 :: cs').length - 1) = false :=
      decide_eq_false (by simp only [List.length_cons]; omega)
    rw [hdec0, Bool.false_and]
    have hbits := fuhdr_bits (nal.getD 0 0 &&& 31) hnt (decide ((0:Nat) = 0)) false
    have hS0 : (((bite (decide ((0:Nat) = 0)) <<< 7) ||| (bite false <<< 6)
        ||| (nal.getD 0 0 &&& 31)) >>> 7) &&& 1 = 1 := by
      rw [hbits.1]
      decide
    have hE0 : (((bite (decide ((0:Nat) = 0)) <<< 7) ||| (bite false <<< 6)
        ||| (nal.getD 0 0 &&& 31)) >>> 6) &&& 1 ≠ 1 := by
      rw [hbits.2]
      decide
    have hlive := liveTail q.ssrc q.timestamp ((nal.getD 0 0 &&& 96) ||| 28)
      (nal.getD 0 0 &&& 31) ((c0 :: cs').length) lastB hts hfu hnt cs' 1
      ((q.sequence + 1) % 65536)
    rcases hD with ⟨hD1, hcf⟩ | hD2
    · subst hD1
      subst hcf
      rw [fuaStep_first q.sequence q.timestamp false _ _ c0 hS0 hE0]
      rw [Nat.zero_add]
      rw [hlive _ [] (by omega) (by simp only [List.length_cons]; omega) hcs'
          (Nat.mod_lt _ (by omega))]
      rw [fuhdr_low (nal.getD 0 0 &&& 31) hnt, hdr_reconstruct (nal.getD 0 0) hv.2.1]
      rw [show ((nal.getD 0 0 :: c0) ++ cs'.flatten) = nal from by
        rw [List.cons_append, ← List.flatten_cons, hflat, hcons]]
      rw [show ((q.sequence + 1) % 65536 + cs'.length) % 65536
            = (q.sequence + (c0 :: cs').length) % 65536 from by
        simp only [List.length_cons]
        omega]
      simp only [List.length_cons]
      rw [genFua_length]
      rw [show cs'.length + 1 - 1 = cs'.length from rfl]
      rw [show cs'.length = cs'.length - 1 + 1 by omega, List.replicate_succ]
      rw [show cs'.length - 1 + 1 = cs'.length by omega]
      rfl
    · subst hD2
      rw [fuaStep_start_mid q.sequence q.timestamp false _ _ c0 cf hS0 hE0 rfl]
      rw [Nat.zero_add]
      rw [hlive _ cf (by omega) (by simp only [List.length_cons]; omega) hcs'
          (Nat.mod_lt _ (by omega))]
      rw [fuhdr_low (nal.getD 0 0 &&& 31) hnt, hdr_reconstruct (nal.getD 0 0) hv.2.1]
      rw [show ((nal.getD 0 0 :: c0) ++ cs'.flatten) = nal from by
        rw [List.cons_append, ← List.flatten_cons, hflat, hcons]]
      rw [show ((q.sequence + 1) % 65536 + cs'.length) % 65536
            = (q.sequence + (c0 :: cs').length) % 65536 from by
        simp only [List.length_cons]
        omega]
      simp only [List.length_cons]
      rw [genFua_length]
      rw [show cs'.length + 1 - 1 = cs'.length from rfl]
      rw [show cs'.length = cs'.length - 1 + 1 by omega, List.replicate_succ]
      rw [show cs'.length - 1 + 1 = cs'.length by omega]
      rfl

theorem packNals_count : ∀ (ns : List (List Nat)) (K i : Nat) (q : RtpPacketizer),
    (∀ nal ∈ ns, ValidNalRtp nal) → q.sequence < 65536 → ns ≠ [] →
    1 ≤ (packNals K q i ns).1.length := by
  intro ns
  cases ns with
  | nil => intro K i q _ _ h; exact absurd rfl h
  | cons nal ns =>
    intro K i q hv hs _
    rw [show packNals K q i (nal :: ns)
          = ((packetize_nal q nal (decide (i = K - 1))).1
              ++ (packNals K (packetize_nal q nal (decide (i = K - 1))).2 (i + 1) ns).1,
             (packNals K (packetize_nal q nal (decide (i = K - 1))).2 (i + 1) ns).2)
          from rfl]
    dsimp only
    rw [List.length_append]
    have := packetize_nal_count q nal (decide (i = K - 1))
      (hv nal (List.mem_cons_self _ _)).1.1 hs
    omega

theorem packNals_feed :
    ∀ (ns : List (List Nat)) (K i : Nat) (q : RtpPacketizer) (D : RtpDepacketizer)
      (cf : List Nat),
      (∀ nal ∈ ns, ValidNalRtp nal) → q.sequence < 65536 → q.timestamp < 2 ^ 32 →
      i + ns.length = K → ns ≠ [] →
      ((D = RtpDepacketizer.new ∧ cf = [])
        ∨ D = ⟨some q.sequence, cf, q.timestamp, [], false⟩) →
      runDep D (packNals K q i ns).1
        = (List.replicate ((packNals K q i ns).1.length - 1) none
            ++ [some (cf ++ (ns.map fun nal => [0, 0, 0, 1] ++ nal).flatten)],
           ⟨some (packNals K q i ns).2.sequence, [], q.timestamp, [], false⟩) := by
  intro ns
  induction ns with
  | nil => intro K i q D cf _ _ _ _ hne _; exact absurd rfl hne
  | cons nal ns ih =>
    intro K i q D cf hv hseq hts hK hne hD
    have hvn : ValidNalRtp nal := hv nal (List.mem_cons_self _ _)
    have hv' : ∀ x ∈ ns, ValidNalRtp x := fun x hx => hv x (List.mem_cons_of_mem _ hx)
    have hc1 : 1 ≤ (packetize_nal q nal (decide (i = K - 1))).1.length :=
      packetize_nal_count q nal _ hvn.1.1 hseq
    cases hns : ns with
    | nil =>
      subst hns
      have hdec : decide (i = K - 1) = true := decide_eq_true (by
        simp only [List.length_cons, List.length_nil] at hK
        omega)
      rw [show packNals K q i [nal]
            = ((packetize_nal q nal (decide (i = K - 1))).1
                ++ (packNals K (packetize_nal q nal (decide (i = K - 1))).2 (i + 1) []).1,
               (packNals K (packetize_nal q nal (decide (i = K - 1))).2 (i + 1) []).2)
            from rfl]
      rw [show packNals K (packetize_nal q nal (decide (i = K - 1))).2 (i + 1) []
            = ([], (packetize_nal q nal (decide (i = K - 1))).2) from rfl]
      dsimp only
      rw [List.append_nil, hdec]
      rw [packetize_nal_feed q nal true D cf hvn hseq hts hD]
      rw [if_pos rfl, if_pos rfl]
      simp [List.append_assoc]
    | cons nal2 ns2 =>
      have hne2 : ns ≠ [] := by rw [hns]; simp
      have hlen2 : 1 ≤ ns.length := by rw [hns]; simp
      rw [← hns]
      have hdec : decide (i = K - 1) = false := decide_eq_false (by
        simp only [List.length_cons] at hK
        omega)
      rw [show packNals K q i (nal :: ns)
            = ((packetize_nal q nal (decide (i = K - 1))).1
                ++ (packNals K (packetize_nal q nal (decide (i = K - 1))).2 (i + 1) ns).1,
               (packNals K (packetize_nal q nal (decide (i = K - 1))).2 (i + 1) ns).2)
            from rfl]
      dsimp only
      rw [hdec]
      rw [runDep_append]
      rw [packetize_nal_feed q nal false D cf hvn hseq hts hD]
      rw [if_neg Bool.false_ne_true, if_neg Bool.false_ne_true]
      have hst := packetize_nal_state q nal false hseq
      have hrest1 : 1 ≤ (packNals K (packetize_nal q nal false).2 (i + 1) ns).1.length :=
        packNals_count ns K (i + 1) _ hv' hst.2 hne2
      rw [ih K (i + 1) (packetize_nal q nal false).2 _ (cf ++ [0, 0, 0, 1] ++ nal)
          hv' hst.2 (by rw [hst.1]; exact hts)
          (by simp only [List.length_cons] at hK; omega)
          hne2
          (Or.inr (by rw [hst.1]))]
      rw [hst.1]
      dsimp only
      rw [List.length_append]
      have hc1' : 1 ≤ (packetize_nal q nal false).1.length := by
        rw [hdec] at hc1
        exact hc1
      rw [show (packetize_nal q nal false).1.length
            + (packNals K (packetize_nal q nal false).2 (i + 1) ns).1.length - 1
          = ((packetize_nal q nal false).1.length - 1) + 1
            + ((packNals K (packetize_nal q nal false).2 (i + 1) ns).1.length - 1)
          by omega]
      rw [List.replicate_add, List.replicate_add, List.replicate_succ]
      simp [List.append_assoc]

/-! ## Claim C1: packetize → depacketize round trip -/

/-- C1 (confirmed): for any access unit built from well-formed NALs of any
size (each prefixed by a 3-byte or 4-byte start code), packetizing and
feeding all RTP packets in order to a fresh depacketizer emits exactly one
access unit — `None` for every packet except the last, which yields the
access unit re-encoded with 4-byte start codes — and both the input and the
emitted unit parse to the same ordered NAL payloads. -/
theorem c1_roundtrip (l : List (Bool × List Nat)) (p : RtpPacketizer) (ft : Nat)
    (hl : l ≠ []) (hv : ∀ q ∈ l, ValidNalRtp q.2) (hseq : p.sequence < 65536) :
    (runDep RtpDepacketizer.new (packetize p (encodeAU l) ft).1).1
      = List.replicate ((packetize p (encodeAU l) ft).1.length - 1) none
        ++ [some (encodeAU (l.map fun q => (false, q.2)))]
    ∧ find_nal_units (encodeAU l) = l.map Prod.snd
    ∧ find_nal_units (encodeAU (l.map fun q => (false, q.2))) = l.map Prod.snd := by
  have hunits : find_nal_units (encodeAU l) = l.map Prod.snd :=
    find_nal_units_encode l (fun q hq => (hv q hq).1)
  have hval' : ∀ q ∈ l.map fun q => ((false : Bool), q.2), ValidNal q.2 := by
    intro q' hq'
    rw [List.mem_map] at hq'
    obtain ⟨x, hx, rfl⟩ := hq'
    exact (hv x hx).1
  refine ⟨?_, hunits, ?_⟩
  · rw [packetize_packNals]
    dsimp only
    rw [hunits]
    have hvall : ∀ nal ∈ l.map Prod.snd, ValidNalRtp nal := by
      intro nal hnal
      rw [List.mem_map] at hnal
      obtain ⟨x, hx, rfl⟩ := hnal
      exact hv x hx
    have hfeed := packNals_feed (l.map Prod.snd) (l.map Prod.snd).length 0
      { p with timestamp := ft * p.clock_rate / 1000 % 2 ^ 32 } RtpDepacketizer.new []
      hvall hseq (Nat.mod_lt _ (by norm_num)) (Nat.zero_add _)
      (by intro h; exact hl (List.map_eq_nil_iff.mp h)) (Or.inl ⟨rfl, rfl⟩)
    rw [hfeed]
    simp [encodeAU, startCode, List.map_map]
    rfl
  · refine (find_nal_units_encode (l.map fun q => ((false : Bool), q.2)) hval').trans ?_
    rw [List.map_map]
    rfl

/-- C1 witness: a two-NAL access unit (3-byte-coded SPS-like NAL, then a
4-byte-coded NAL) round-trips through packetize/depacketize: one `None`
then the re-encoded access unit. -/
theorem c1_witness :
    ([((true : Bool), [103, 7]), ((false : Bool), [101, 8, 9])] : List (Bool × List Nat)) ≠ []
    ∧ (runDep RtpDepacketizer.new
        (packetize ⟨0, 0, 0, 90000⟩
          (encodeAU [(true, [103, 7]), (false, [101, 8, 9])]) 0).1).1
      = [none, some [0, 0, 0, 1, 103, 7, 0, 0, 0, 1, 101, 8, 9]] :=
  ⟨by decide,
   ((c1_roundtrip [(true, [103, 7]), (false, [101, 8, 9])] ⟨0, 0, 0, 90000⟩ 0
       (by decide) (by decide) (by decide)).1).trans (by decide)⟩

/-! ## Claim C3: encoder keyframe detection -/

/-- C3, counterexample: the byte string `00 00 00 01 65` is an Annex-B
bitstream containing an IDR NAL (type 5) at a 4-byte start code, yet
`H264Encoder::is_keyframe` returns `false` for it, because the scan stops at
`data.len().saturating_sub(5)` and never examines a start code beginning in
the last five bytes.  So the flag is not "true iff a NAL of type 5 or 7
occurs anywhere, including near the end of the buffer". -/
theorem c3_counterexample :
    containsKeyframeNal [0, 0, 0, 1, 101] = true
      ∧ is_keyframe [0, 0, 0, 1, 101] = false := by
  decide

/-- C3, amended: `is_keyframe` is true iff a 3-byte (`00 00 01`) or 4-byte
(`00 00 00 01`) start code whose first byte lies more than five bytes before
the end of the buffer is followed by a NAL of type 5 or 7 (start codes
beginning in the last five bytes are not examined). -/
theorem c3_is_keyframe_iff (data : List Nat) :
    is_keyframe data = true ↔
      ∃ i, i + 5 < data.length ∧ data.getD i 0 = 0 ∧ data.getD (i+1) 0 = 0 ∧
        ((data.getD (i+2) 0 = 1
            ∧ (data.getD (i+3) 0 &&& 31 = 5 ∨ data.getD (i+3) 0 &&& 31 = 7))
         ∨ (data.getD (i+2) 0 ≠ 1 ∧ data.getD (i+2) 0 = 0 ∧ data.getD (i+3) 0 = 1
            ∧ (data.getD (i+4) 0 &&& 31 = 5 ∨ data.getD (i+4) 0 &&& 31 = 7))) := by
  unfold is_keyframe
  rw [List.any_eq_true]
  constructor
  · rintro ⟨i, hmem, hi⟩
    rw [List.mem_range] at hmem
    refine ⟨i, by omega, ?_⟩
    by_cases h1 : data.getD i 0 = 0 ∧ data.getD (i+1) 0 = 0
    · rw [if_pos h1] at hi
      refine ⟨h1.1, h1.2, ?_⟩
      by_cases h2 : data.getD (i+2) 0 = 1
      · left
        simp only [h2, if_true, if_pos] at hi
        simp only [show i + 3 < data.length by omega, and_true, true_and, if_pos,
          decide_eq_true_eq] at hi
        exact ⟨h2, hi⟩
      · right
        simp only [h2, if_false, ite_false] at hi
        by_cases h3 : data.getD (i+2) 0 = 0 ∧ i + 3 < data.length ∧ data.getD (i+3) 0 = 1
        · rw [if_pos h3] at hi
          simp only [show i + 4 < data.length by omega, and_true, true_and, if_pos,
            decide_eq_true_eq] at hi
          exact ⟨h2, h3.1, h3.2.2, hi⟩
        · rw [if_neg h3] at hi
          simp at hi
    · rw [if_neg h1] at hi
      simp at hi
  · rintro ⟨i, h5, ha, hb, hcase⟩
    refine ⟨i, List.mem_range.mpr (by omega), ?_⟩
    rw [if_pos ⟨ha, hb⟩]
    rcases hcase with ⟨h2, ht⟩ | ⟨h2ne, h20, h31, ht⟩
    · simp only [List.getD_eq_getElem?_getD,
        List.getElem?_eq_getElem (show i + 2 < data.length by omega),
        List.getElem?_eq_getElem (show i + 3 < data.length by omega),
        Option.getD_some] at h2 ht
      simp [List.getElem?_eq_getElem (show i + 2 < data.length by omega),
        List.getElem?_eq_getElem (show i + 3 < data.length by omega),
        h2, ht, show i + 3 < data.length by omega]
    · simp only [List.getD_eq_getElem?_getD,
        List.getElem?_eq_getElem (show i + 2 < data.length by omega),
        List.getElem?_eq_getElem (show i + 3 < data.length by omega),
        List.getElem?_eq_getElem (show i + 4 < data.length by omega),
        Option.getD_some] at h2ne h20 h31 ht
      simp [List.getElem?_eq_getElem (show i + 2 < data.length by omega),
        List.getElem?_eq_getElem (show i + 3 < data.length by omega),
        List.getElem?_eq_getElem (show i + 4 < data.length by omega),
        h2ne, h20, h31, ht, show i + 3 < data.length by omega,
        show i + 4 < data.length by omega]

/-! ## Claim C4: student wait-for-keyframe scan -/

/-- C4, counterexample: the access unit `00 00 00 01 67` contains an SPS NAL
(type 7), so by the claim it should be decoded and leave `WaitingKeyframe`;
but the scan in `run_student` looks only for type 5, so the unit is discarded
and the state stays `WaitingKeyframe` (`runStudentStep true ... = (true,
false)`: still waiting, not decoded). -/
theorem c4_counterexample :
    containsKeyframeNal [0, 0, 0, 1, 103] = true
      ∧ runStudentStep true [0, 0, 0, 1, 103] = (true, false) := by
  decide

/-- C4, amended: while waiting for a keyframe, an assembled access unit is
decoded (and the state leaves `WaitingKeyframe`) iff a 5-byte window of the
unit matches `00 00 00 01 x` or starts `00 00 01 x` with `x & 0x1F = 5`
(IDR); type 7 does not satisfy the scan.  Otherwise the unit is discarded and
the state stays `WaitingKeyframe`. -/
theorem c4_waiting_keyframe (frame : List Nat) :
    (runStudentStep true frame = (false, true)
        ∨ runStudentStep true frame = (true, false))
      ∧ (runStudentStep true frame = (false, true) ↔
          ∃ i, i + 4 < frame.length ∧ frame.getD i 0 = 0 ∧ frame.getD (i+1) 0 = 0 ∧
            ((frame.getD (i+2) 0 = 0 ∧ frame.getD (i+3) 0 = 1
                ∧ frame.getD (i+4) 0 &&& 31 = 5)
             ∨ (frame.getD (i+2) 0 = 1 ∧ frame.getD (i+3) 0 &&& 31 = 5))) := by
  have hiff : studentIsKeyframe frame = true ↔
      ∃ i, i + 4 < frame.length ∧ frame.getD i 0 = 0 ∧ frame.getD (i+1) 0 = 0 ∧
        ((frame.getD (i+2) 0 = 0 ∧ frame.getD (i+3) 0 = 1
            ∧ frame.getD (i+4) 0 &&& 31 = 5)
         ∨ (frame.getD (i+2) 0 = 1 ∧ frame.getD (i+3) 0 &&& 31 = 5)) := by
    unfold studentIsKeyframe
    rw [List.any_eq_true]
    constructor
    · rintro ⟨i, hmem, hi⟩
      rw [List.mem_range] at hmem
      rw [decide_eq_true_eq] at hi
      rcases hi with ⟨ha, hb, hc, hd, he⟩ | ⟨ha, hb, hc, hd⟩
      · exact ⟨i, by omega, ha, hb, Or.inl ⟨hc, hd, he⟩⟩
      · exact ⟨i, by omega, ha, hb, Or.inr ⟨hc, hd⟩⟩
    · rintro ⟨i, h4, ha, hb, hcase⟩
      refine ⟨i, List.mem_range.mpr (by omega), ?_⟩
      rw [decide_eq_true_eq]
      rcases hcase with ⟨hc, hd, he⟩ | ⟨hc, hd⟩
      · exact Or.inl ⟨ha, hb, hc, hd, he⟩
      · exact Or.inr ⟨ha, hb, hc, hd⟩
  by_cases h : studentIsKeyframe frame = true
  · have hstep : runStudentStep true frame = (false, true) := by
      unfold runStudentStep
      rw [if_pos rfl, if_pos h]
    rw [hstep]
    exact ⟨Or.inl rfl, fun _ => hiff.mp h, fun _ => rfl⟩
  · have hstep : runStudentStep true frame = (true, false) := by
      unfold runStudentStep
      rw [if_pos rfl, if_neg h]
    rw [hstep]
    refine ⟨Or.inr rfl, ?_, ?_⟩
    · intro hcontra
      simp at hcontra
    · intro hex
      exact absurd (hiff.mpr hex) h

/-! ## Claim C2: depacketizer STAP-A / drop behaviour -/

/-- C2, counterexample.  First packet: marker set, payload
`78 00 01 65` (NAL type 24 = STAP-A carrying the single NAL `65`).  The
claim says the depacketizer iterates the `(u16 size, bytes)` tuples and
appends start code + each NAL, i.e. `00 00 00 01 65`; the code instead has
no STAP-A branch and appends the whole payload verbatim.  Second packet:
payload `9E` (NAL type 30, outside 1..=23/24/28).  The claim says it is
dropped; the code appends it to the current frame. -/
theorem c2_counterexample :
    (depacketize RtpDepacketizer.new
        [128, 224, 0, 0, 0, 0, 0, 0, 0, 0, 0, 0, 120, 0, 1, 101]).1 =
      some [0, 0, 0, 1, 120, 0, 1, 101]
    ∧ stapExpected [120, 0, 1, 101] = [0, 0, 0, 1, 101]
    ∧ ([0, 0, 0, 1, 120, 0, 1, 101] : List Nat) ≠ [0, 0, 0, 1, 101]
    ∧ (depacketize RtpDepacketizer.new
        [128, 96, 0, 0, 0, 0, 0, 0, 0, 0, 0, 0, 158]).2.current_frame =
      [0, 0, 0, 1, 158]
    ∧ ([0, 0, 0, 1, 158] : List Nat) ≠ [] := by
  decide

/-- C2, amended: the depacketizer has no STAP-A branch and drops nothing by
NAL type: every packet with a valid RTP header (PT 96) and a non-empty
payload whose NAL type (`payload[0] & 0x1F`) is not 28 — including STAP-A
(24) and all types outside 1..=23 — has its whole payload appended to the
current frame behind a `00 00 00 01` start code (after the timestamp-change
reset), and the frame is emitted iff the marker bit is set. -/
theorem c2_depacketize_non_fua (s : RtpDepacketizer) (rtp : List Nat)
    (hdr : RtpHeader) (hparse : RtpHeader.parse rtp = some hdr)
    (hpt : hdr.payload_type = 96) (hne : rtp.drop 12 ≠ [])
    (htype : (rtp.drop 12).getD 0 0 &&& 31 ≠ 28) :
    (depacketize s rtp).1 =
        (if hdr.marker then
          some ((if hdr.timestamp ≠ s.current_timestamp then [] else s.current_frame)
            ++ [0, 0, 0, 1] ++ rtp.drop 12)
         else none)
      ∧ (depacketize s rtp).2.current_frame =
        (if hdr.marker then []
         else (if hdr.timestamp ≠ s.current_timestamp then [] else s.current_frame)
            ++ [0, 0, 0, 1] ++ rtp.drop 12) := by
  rw [depacketize_eq_dstep s rtp hdr hparse hpt hne]
  refine dstep_not_fua s hdr.sequence hdr.timestamp hdr.marker (rtp.drop 12) ?_
  unfold NalType.fromByte
  split <;> simp_all

/-- C2 witness: the amended theorem applied to a concrete STAP-A packet. -/
theorem c2_witness :
    (RtpHeader.parse [128, 224, 0, 0, 0, 0, 0, 0, 0, 0, 0, 0, 120, 0, 1, 101] =
        some { version := 2, padding := false, extension := false, csrc_count := 0,
               marker := true, payload_type := 96, sequence := 0, timestamp := 0,
               ssrc := 0 })
    ∧ ([128, 224, 0, 0, 0, 0, 0, 0, 0, 0, 0, 0, 120, 0, 1, 101].drop 12 ≠
        ([] : List Nat))
    ∧ (depacketize RtpDepacketizer.new
        [128, 224, 0, 0, 0, 0, 0, 0, 0, 0, 0, 0, 120, 0, 1, 101]).1 =
      some [0, 0, 0, 1, 120, 0, 1, 101] := by
  refine ⟨by decide, by decide, ?_⟩
  have h := (c2_depacketize_non_fua RtpDepacketizer.new
    [128, 224, 0, 0, 0, 0, 0, 0, 0, 0, 0, 0, 120, 0, 1, 101]
    { version := 2, padding := false, extension := false, csrc_count := 0,
      marker := true, payload_type := 96, sequence := 0, timestamp := 0,
      ssrc := 0 } (by decide) (by decide) (by decide) (by decide)).1
  rw [h]
  decide

/-! ## Claim C10: discovery never records the local id -/

theorem tableInsert_contains_other (t : PeerTable) (k k' : String) (v : PeerInfo)
    (hne : k ≠ k') : tableContains (tableInsert t k v) k' = tableContains t k' := by
  unfold tableInsert
  by_cases h : tableContains t k = true
  · rw [if_pos h]
    clear h
    induction t with
    | nil => rfl
    | cons e es ih =>
      unfold tableContains at ih ⊢
      simp only [List.map_cons, List.any_cons] at ih ⊢
      rw [ih]
      by_cases he : e.1 = k <;> simp [he, hne]
  · rw [if_neg h]
    unfold tableContains
    rw [List.any_append]
    have hsingle : ([(k, v)].any fun e => e.1 = k') = false := by
      simp [hne]
    rw [hsingle, Bool.or_false]

theorem handle_message_no_self (selfInfo : PeerInfo) (t : PeerTable)
    (msg : DiscoveryMessage) (srcIp : String)
    (h : tableContains t selfInfo.id = false) :
    tableContains (handle_message selfInfo t msg srcIp).1 selfInfo.id = false := by
  rcases msg with peer | _ | peer
  · simp only [handle_message]
    by_cases hid : ({ peer with ip := srcIp } : PeerInfo).id = selfInfo.id
    · rw [if_pos hid]
      exact h
    · rw [if_neg hid]
      simp only
      rw [tableInsert_contains_other t _ _ _ hid]
      exact h
  · exact h
  · simp only [handle_message]
    by_cases hid : ({ peer with ip := srcIp } : PeerInfo).id = selfInfo.id
    · rw [if_neg (show ¬ ({ peer with ip := srcIp } : PeerInfo).id ≠ selfInfo.id from
        fun hc => hc hid)]
      exact h
    · rw [if_pos hid]
      simp only
      rw [tableInsert_contains_other t _ _ _ hid]
      exact h

/-- C10: a discovery `Announce` or `Response` whose peer id equals the local
id is never inserted (the table is returned unchanged), and consequently,
over any sequence of received messages starting from the empty table created
by `DiscoveryService::new`, the peer table never contains an entry keyed by
the local id. -/
theorem c10_no_self_echo (selfInfo : PeerInfo) :
    (∀ t peer srcIp, peer.id = selfInfo.id →
        (handle_message selfInfo t (DiscoveryMessage.announce peer) srcIp).1 = t
        ∧ (handle_message selfInfo t (DiscoveryMessage.response peer) srcIp).1 = t)
    ∧ ∀ msgs : List (DiscoveryMessage × String),
        tableContains (handleAll selfInfo [] msgs) selfInfo.id = false := by
  constructor
  · intro t peer srcIp hid
    constructor
    · simp only [handle_message]
      rw [if_pos (show ({ peer with ip := srcIp } : PeerInfo).id = selfInfo.id from hid)]
    · simp only [handle_message]
      rw [if_neg (show ¬ ({ peer with ip := srcIp } : PeerInfo).id ≠ selfInfo.id by
        simpa using hid)]
  · intro msgs
    have key : ∀ (msgs : List (DiscoveryMessage × String)) (t : PeerTable),
        tableContains t selfInfo.id = false →
        tableContains (handleAll selfInfo t msgs) selfInfo.id = false := by
      intro msgs
      induction msgs with
      | nil => intro t h; exact h
      | cons m ms ih =>
        intro t h
        exact ih _ (handle_message_no_self selfInfo t m.1 m.2 h)
    exact key msgs [] rfl

/-! ## Claim C9: RGB → YUV conversion lemmas -/

theorem asr_eq_ediv (x : Int) (k : Nat) : asr x k = x / (2 ^ k : Nat) := by
  unfold asr
  rw [Int.fdiv_eq_ediv x (by positivity)]
  norm_num

theorem clampU8_le (x : Int) : clampU8 x ≤ 255 := by
  unfold clampU8
  omega

theorem getD_le_255 (rgb : List Nat) (hbytes : ∀ v ∈ rgb, v ≤ 255) (idx : Nat) :
    rgb.getD idx 0 ≤ 255 := by
  by_cases h : idx < rgb.length
  · rw [List.getD_eq_getElem rgb 0 h]
    exact hbytes _ (List.getElem_mem h)
  · rw [List.getD_eq_default rgb 0 (by omega)]
    omega

theorem chan_bounds (rgb : List Nat) (hbytes : ∀ v ∈ rgb, v ≤ 255) (w x y : Nat) :
    (0 ≤ rAt rgb w x y ∧ rAt rgb w x y ≤ 255)
      ∧ (0 ≤ gAt rgb w x y ∧ gAt rgb w x y ≤ 255)
      ∧ (0 ≤ bAt rgb w x y ∧ bAt rgb w x y ≤ 255) := by
  unfold rAt gAt bAt
  have h1 := getD_le_255 rgb hbytes ((y * w + x) * 3)
  have h2 := getD_le_255 rgb hbytes ((y * w + x) * 3 + 1)
  have h3 := getD_le_255 rgb hbytes ((y * w + x) * 3 + 2)
  omega

theorem yValue_bounds (r g b : Int) (hr : 0 ≤ r) (hr' : r ≤ 255) (hg : 0 ≤ g)
    (hg' : g ≤ 255) (hb : 0 ≤ b) (hb' : b ≤ 255) :
    16 ≤ yValue r g b ∧ yValue r g b ≤ 235 := by
  unfold yValue
  rw [asr_eq_ediv]
  norm_num
  omega

theorem yPix_bounds (rgb : List Nat) (hbytes : ∀ v ∈ rgb, v ≤ 255) (w x y : Nat) :
    16 ≤ yPix rgb w x y ∧ yPix rgb w x y ≤ 235 := by
  obtain ⟨⟨hr, hr'⟩, ⟨hg, hg'⟩, ⟨hb, hb'⟩⟩ := chan_bounds rgb hbytes w x y
  have := yValue_bounds _ _ _ hr hr' hg hg' hb hb'
  unfold yPix clampU8
  omega

theorem mulIndexLt (w h x y : Nat) (hx : x < w) (hy : y < h) : y * w + x < w * h := by
  have h1 : (y + 1) * w ≤ h * w := Nat.mul_le_mul_right w (by omega)
  have h2 : (y + 1) * w = y * w + w := by ring
  have h3 : h * w = w * h := Nat.mul_comm h w
  omega

theorem index_inj (w x x' y y' : Nat) (hx : x < w) (hx' : x' < w)
    (h : y * w + x = y' * w + x') : y = y' ∧ x = x' := by
  have key : ∀ u v : Nat, u < v → u * w + w ≤ v * w := by
    intro u v huv
    have h1 : (u + 1) * w ≤ v * w := Nat.mul_le_mul_right w (by omega)
    have h2 : (u + 1) * w = u * w + w := by ring
    omega
  have hyy : y = y' := by
    rcases Nat.lt_trichotomy y y' with hlt | heq | hgt
    · have := key y y' hlt
      omega
    · exact heq
    · have := key y' y hgt
      omega
  subst hyy
  omega

/-! ### Capture conversion, per-row characterization -/

theorem cap_row_y (rgb : List Nat) (w h j : Nat) (hlen : 3 * (w * h) ≤ rgb.length)
    (hj : j < h) :
    ∀ n, n ≤ w → ∀ pl x y, x < w → y < h →
      ((List.range n).foldl (capPixelStep rgb w h j) pl).y (y * w + x) =
        if y = j ∧ x < n then yPix rgb w x y else pl.y (y * w + x) := by
  intro n
  induction n with
  | zero =>
    intro _ pl x y hx hy
    simp
  | succ n ih =>
    intro hn pl x y hx hy
    rw [List.range_succ, List.foldl_append]
    have hpix : (j * w + n) * 3 + 2 < rgb.length := by
      have := mulIndexLt w h n j (by omega) hj
      omega
    have hstep : ∀ q : Planes,
        (capPixelStep rgb w h j q n).y (y * w + x) =
          if y = j ∧ x = n then yPix rgb w x y else q.y (y * w + x) := by
      intro q
      unfold capPixelStep
      rw [if_neg (by omega)]
      have hupd : (Function.update q.y (j * w + n)
          (clampU8 (yValue (rgb.getD ((j * w + n) * 3) 0)
            (rgb.getD ((j * w + n) * 3 + 1) 0)
            (rgb.getD ((j * w + n) * 3 + 2) 0)))) (y * w + x) =
          if y = j ∧ x = n then yPix rgb w x y else q.y (y * w + x) := by
        rw [Function.update_apply]
        by_cases hcase : y = j ∧ x = n
        · rw [if_pos (by rw [hcase.1, hcase.2]), if_pos hcase]
          rw [hcase.1, hcase.2]
          rfl
        · rw [if_neg ?_, if_neg hcase]
          intro habs
          exact hcase ⟨(index_inj w x n y j hx (by omega) habs).1,
            (index_inj w x n y j hx (by omega) habs).2⟩
      by_cases hj2 : j % 2 = 0 ∧ n % 2 = 0
      · rw [if_pos hj2]
        by_cases huv : j / 2 * (w / 2) + n / 2 < w * h / 4
        · rw [if_pos huv]
          exact hupd
        · rw [if_neg huv]
          exact hupd
      · rw [if_neg hj2]
        exact hupd
    rw [List.foldl_cons, List.foldl_nil, hstep, ih (by omega) pl x y hx hy]
    by_cases hc1 : y = j ∧ x = n
    · rw [if_pos hc1, if_pos ⟨hc1.1, by omega⟩]
    · by_cases hc2 : y = j ∧ x < n
      · rw [if_neg hc1, if_pos hc2, if_pos ⟨hc2.1, by omega⟩]
      · rw [if_neg hc1, if_neg hc2, if_neg (by omega)]

theorem uv_total (w h : Nat) (hw : w % 2 = 0) (hh : h % 2 = 0) :
    w / 2 * (h / 2) = w * h / 4 := by
  have ha : w = 2 * (w / 2) := by omega
  have hb : h = 2 * (h / 2) := by omega
  have : w * h = 4 * (w / 2 * (h / 2)) := by
    conv_lhs => rw [ha, hb]
    ring
  omega

theorem uvIdx_lt (w h j i : Nat) (hw : w % 2 = 0) (hh : h % 2 = 0)
    (hj : j < h) (hi : i < w) : j / 2 * (w / 2) + i / 2 < w * h / 4 := by
  have h1 : i / 2 < w / 2 := by omega
  have h2 : j / 2 < h / 2 := by omega
  have h3 := mulIndexLt (w / 2) (h / 2) (i / 2) (j / 2) h1 h2
  have h4 := uv_total w h hw hh
  omega

theorem cap_row_uv (rgb : List Nat) (w h j : Nat)
    (hlen : 3 * (w * h) ≤ rgb.length) (hj : j < h) (hw : w % 2 = 0)
    (hh : h % 2 = 0) :
    ∀ n, n ≤ w → ∀ pl BJ BI, BI < w / 2 →
      (((List.range n).foldl (capPixelStep rgb w h j) pl).u (BJ * (w / 2) + BI) =
        if j % 2 = 0 ∧ j / 2 = BJ ∧ 2 * BI < n then uTopLeft rgb w j (2 * BI)
        else pl.u (BJ * (w / 2) + BI))
      ∧ (((List.range n).foldl (capPixelStep rgb w h j) pl).v (BJ * (w / 2) + BI) =
        if j % 2 = 0 ∧ j / 2 = BJ ∧ 2 * BI < n then vTopLeft rgb w j (2 * BI)
        else pl.v (BJ * (w / 2) + BI)) := by
  intro n
  induction n with
  | zero =>
    intro _ pl BJ BI hBI
    simp
  | succ n ih =>
    intro hn pl BJ BI hBI
    rw [List.range_succ, List.foldl_append, List.foldl_cons, List.foldl_nil]
    have hpix : (j * w + n) * 3 + 2 < rgb.length := by
      have := mulIndexLt w h n j (by omega) hj
      omega
    obtain ⟨ihu, ihv⟩ := ih (by omega) pl BJ BI hBI
    have hstep : ∀ q : Planes,
        ((capPixelStep rgb w h j q n).u (BJ * (w / 2) + BI) =
          if j % 2 = 0 ∧ j / 2 = BJ ∧ n = 2 * BI then uTopLeft rgb w j (2 * BI)
          else q.u (BJ * (w / 2) + BI))
        ∧ ((capPixelStep rgb w h j q n).v (BJ * (w / 2) + BI) =
          if j % 2 = 0 ∧ j / 2 = BJ ∧ n = 2 * BI then vTopLeft rgb w j (2 * BI)
          else q.v (BJ * (w / 2) + BI)) := by
      intro q
      unfold capPixelStep
      rw [if_neg (by omega)]
      by_cases hpar : j % 2 = 0 ∧ n % 2 = 0
      · rw [if_pos hpar]
        rw [if_pos (uvIdx_lt w h j n hw hh hj (by omega))]
        simp only [Function.update_apply]
        constructor
        · by_cases hc : j % 2 = 0 ∧ j / 2 = BJ ∧ n = 2 * BI
          · obtain ⟨ha, hb, hcn⟩ := hc
            rw [if_pos (by rw [hb.symm, hcn]; omega), if_pos ⟨ha, hb, hcn⟩]
            unfold uTopLeft rAt gAt bAt
            rw [hcn]
          · rw [if_neg ?_, if_neg hc]
            intro habs
            have := index_inj (w / 2) BI (n / 2) BJ (j / 2) hBI (by omega) habs
            exact hc ⟨hpar.1, this.1.symm, by omega⟩
        · by_cases hc : j % 2 = 0 ∧ j / 2 = BJ ∧ n = 2 * BI
          · obtain ⟨ha, hb, hcn⟩ := hc
            rw [if_pos (by rw [hb.symm, hcn]; omega), if_pos ⟨ha, hb, hcn⟩]
            unfold vTopLeft rAt gAt bAt
            rw [hcn]
          · rw [if_neg ?_, if_neg hc]
            intro habs
            have := index_inj (w / 2) BI (n / 2) BJ (j / 2) hBI (by omega) habs
            exact hc ⟨hpar.1, this.1.symm, by omega⟩
      · rw [if_neg hpar]
        constructor
        · rw [if_neg (by omega)]
        · rw [if_neg (by omega)]
    obtain ⟨hsu, hsv⟩ := hstep ((List.range n).foldl (capPixelStep rgb w h j) pl)
    rw [hsu, hsv, ihu, ihv]
    have hcombine : ∀ z1 z2 : Nat,
        (if j % 2 = 0 ∧ j / 2 = BJ ∧ n = 2 * BI then z1
         else if j % 2 = 0 ∧ j / 2 = BJ ∧ 2 * BI < n then z1 else z2) =
        (if j % 2 = 0 ∧ j / 2 = BJ ∧ 2 * BI < n + 1 then z1 else z2) := by
      intro z1 z2
      by_cases hc1 : j % 2 = 0 ∧ j / 2 = BJ ∧ n = 2 * BI
      · obtain ⟨ha, hb, hcn⟩ := hc1
        rw [if_pos ⟨ha, hb, hcn⟩, if_pos ⟨ha, hb, by omega⟩]
      · rw [if_neg hc1]
        by_cases hc2 : j % 2 = 0 ∧ j / 2 = BJ ∧ 2 * BI < n
        · obtain ⟨ha, hb, hcn⟩ := hc2
          rw [if_pos ⟨ha, hb, hcn⟩, if_pos ⟨ha, hb, by omega⟩]
        · rw [if_neg hc2, if_neg ?_]
          rintro ⟨ha, hb, hcn⟩
          rcases Nat.lt_or_ge (2 * BI) n with hlt | hge
          · exact hc2 ⟨ha, hb, hlt⟩
          · exact hc1 ⟨ha, hb, by omega⟩
    exact ⟨hcombine _ _, hcombine _ _⟩

theorem cap_rows_y (rgb : List Nat) (w h : Nat) (hlen : 3 * (w * h) ≤ rgb.length) :
    ∀ m, m ≤ h → ∀ x y, x < w → y < h →
      ((List.range m).foldl (capRowStep rgb w h) Planes.init).y (y * w + x) =
        if y < m then yPix rgb w x y else 0 := by
  intro m
  induction m with
  | zero =>
    intro _ x y hx hy
    simp [Planes.init]
  | succ m ih =>
    intro hm x y hx hy
    rw [List.range_succ, List.foldl_append, List.foldl_cons, List.foldl_nil]
    have hrow : ∀ q : Planes, capRowStep rgb w h q m =
        (List.range w).foldl (capPixelStep rgb w h m) q := fun _ => rfl
    rw [hrow]
    rw [cap_row_y rgb w h m hlen (by omega) w (le_refl w) _ x y hx hy]
    rw [ih (by omega) x y hx hy]
    by_cases hc1 : y = m
    · rw [if_pos ⟨hc1, hx⟩, if_pos (show y < m + 1 by omega)]
    · rw [if_neg (by omega)]
      by_cases hc2 : y < m
      · rw [if_pos hc2, if_pos (by omega)]
      · rw [if_neg hc2, if_neg (by omega)]

theorem cap_rows_uv (rgb : List Nat) (w h : Nat) (hlen : 3 * (w * h) ≤ rgb.length)
    (hw : w % 2 = 0) (hh : h % 2 = 0) :
    ∀ m, m ≤ h → ∀ BJ BI, BI < w / 2 →
      (((List.range m).foldl (capRowStep rgb w h) Planes.init).u (BJ * (w / 2) + BI) =
        if 2 * BJ < m then uTopLeft rgb w (2 * BJ) (2 * BI) else 0)
      ∧ (((List.range m).foldl (capRowStep rgb w h) Planes.init).v (BJ * (w / 2) + BI) =
        if 2 * BJ < m then vTopLeft rgb w (2 * BJ) (2 * BI) else 0) := by
  intro m
  induction m with
  | zero =>
    intro _ BJ BI hBI
    simp [Planes.init]
  | succ m ih =>
    intro hm BJ BI hBI
    rw [List.range_succ, List.foldl_append, List.foldl_cons, List.foldl_nil]
    have hrow : ∀ q : Planes, capRowStep rgb w h q m =
        (List.range w).foldl (capPixelStep rgb w h m) q := fun _ => rfl
    rw [hrow]
    obtain ⟨hu, hv⟩ := cap_row_uv rgb w h m hlen (by omega) hw hh w (le_refl w) _ BJ BI hBI
    obtain ⟨ihu, ihv⟩ := ih (by omega) BJ BI hBI
    rw [hu, hv, ihu, ihv]
    have hbound : 2 * BI < w := by omega
    constructor
    · by_cases hc1 : m % 2 = 0 ∧ m / 2 = BJ
      · obtain ⟨ha, hb⟩ := hc1
        rw [if_pos ⟨ha, hb, hbound⟩, if_pos (show 2 * BJ < m + 1 by omega)]
        rw [show m = 2 * BJ by omega]
      · rw [if_neg (by tauto)]
        have hnm : ¬ 2 * BJ = m := by
          intro habs
          exact hc1 ⟨by omega, by omega⟩
        by_cases hc2 : 2 * BJ < m
        · rw [if_pos hc2, if_pos (by omega)]
        · rw [if_neg hc2, if_neg (by omega)]
    · by_cases hc1 : m % 2 = 0 ∧ m / 2 = BJ
      · obtain ⟨ha, hb⟩ := hc1
        rw [if_pos ⟨ha, hb, hbound⟩, if_pos (show 2 * BJ < m + 1 by omega)]
        rw [show m = 2 * BJ by omega]
      · rw [if_neg (by tauto)]
        have hnm : ¬ 2 * BJ = m := by
          intro habs
          exact hc1 ⟨by omega, by omega⟩
        by_cases hc2 : 2 * BJ < m
        · rw [if_pos hc2, if_pos (by omega)]
        · rw [if_neg hc2, if_neg (by omega)]

/-! ### Encoder conversion, block characterization -/

theorem stepBy2_eq (n : Nat) :
    stepBy2 n = (List.range ((n + 1) / 2)).map (fun k => 2 * k) := by
  induction n with
  | zero => rfl
  | succ n ih =>
    unfold stepBy2 at ih ⊢
    rw [List.range_succ, List.filter_append, ih]
    by_cases hpar : n % 2 = 0
    · have h1 : (n + 1 + 1) / 2 = (n + 1) / 2 + 1 := by omega
      rw [h1, List.range_succ, List.map_append]
      have h2 : List.filter (fun k => decide (k % 2 = 0)) [n] = [n] := by
        simp [hpar]
      rw [h2]
      have h3 : 2 * ((n + 1) / 2) = n := by omega
      simp [h3]
    · have h1 : (n + 1 + 1) / 2 = (n + 1) / 2 := by omega
      rw [h1]
      simp [hpar]

theorem fastPixelStep_char (rgb : List Nat) (w h j i : Nat) (acc : BlockAcc)
    (dy dx : Nat) (hy : j + dy < h) (hx : i + dx < w)
    (hlen : 3 * (w * h) ≤ rgb.length) :
    fastPixelStep rgb w h j i acc (dy, dx) =
      { yp := Function.update acc.yp ((j + dy) * w + (i + dx))
                (yPix rgb w (i + dx) (j + dy)),
        sum_r := acc.sum_r + rAt rgb w (i + dx) (j + dy),
        sum_g := acc.sum_g + gAt rgb w (i + dx) (j + dy),
        sum_b := acc.sum_b + bAt rgb w (i + dx) (j + dy) } := by
  unfold fastPixelStep
  dsimp only
  rw [if_neg (by omega)]
  rw [if_neg (by
    have := mulIndexLt w h (i + dx) (j + dy) hx hy
    omega)]
  rfl

theorem yuvFastBlock_char (rgb : List Nat) (w h j i : Nat) (yp : Nat → Nat)
    (hj : j + 1 < h) (hi : i + 1 < w) (hlen : 3 * (w * h) ≤ rgb.length) :
    yuvFastBlock rgb w h j i yp =
      { yp := Function.update (Function.update (Function.update (Function.update yp
                (j * w + i) (yPix rgb w i j))
                (j * w + (i + 1)) (yPix rgb w (i + 1) j))
                ((j + 1) * w + i) (yPix rgb w i (j + 1)))
                ((j + 1) * w + (i + 1)) (yPix rgb w (i + 1) (j + 1)),
        sum_r := sumR rgb w j i, sum_g := sumG rgb w j i,
        sum_b := sumB rgb w j i } := by
  unfold yuvFastBlock blockPixels
  rw [List.foldl_cons, List.foldl_cons, List.foldl_cons, List.foldl_cons,
    List.foldl_nil]
  rw [fastPixelStep_char rgb w h j i _ 0 0 (by omega) (by omega) hlen]
  rw [fastPixelStep_char rgb w h j i _ 0 1 (by omega) (by omega) hlen]
  rw [fastPixelStep_char rgb w h j i _ 1 0 (by omega) (by omega) hlen]
  rw [fastPixelStep_char rgb w h j i _ 1 1 (by omega) (by omega) hlen]
  simp only [Nat.add_zero, zero_add]
  unfold sumR sumG sumB
  rfl

theorem fastBlockStep_char (rgb : List Nat) (w h j i : Nat) (pl : Planes)
    (hw : w % 2 = 0) (hh : h % 2 = 0) (hj : j < h) (hj2 : j % 2 = 0)
    (hi : i < w) (hi2 : i % 2 = 0) (hlen : 3 * (w * h) ≤ rgb.length) :
    fastBlockStep rgb w h j pl i =
      { y := Function.update (Function.update (Function.update (Function.update pl.y
                (j * w + i) (yPix rgb w i j))
                (j * w + (i + 1)) (yPix rgb w (i + 1) j))
                ((j + 1) * w + i) (yPix rgb w i (j + 1)))
                ((j + 1) * w + (i + 1)) (yPix rgb w (i + 1) (j + 1)),
        u := Function.update pl.u (j / 2 * (w / 2) + i / 2) (uBlockMean rgb w j i),
        v := Function.update pl.v (j / 2 * (w / 2) + i / 2) (vBlockMean rgb w j i) } := by
  unfold fastBlockStep
  rw [yuvFastBlock_char rgb w h j i pl.y (by omega) (by omega) hlen]
  rw [if_pos (uvIdx_lt w h j i hw hh hj hi)]
  rfl

theorem up4_apply (f : Nat → Nat) (w h j i x y : Nat) (v1 v2 v3 v4 : Nat)
    (hx : x < w) (hy : y < h) (hiw : i + 1 < w) (hjh : j + 1 < h) :
    (Function.update (Function.update (Function.update (Function.update f
        (j * w + i) v1) (j * w + (i + 1)) v2)
        ((j + 1) * w + i) v3) ((j + 1) * w + (i + 1)) v4) (y * w + x) =
      if y = j ∧ x = i then v1
      else if y = j ∧ x = i + 1 then v2
      else if y = j + 1 ∧ x = i then v3
      else if y = j + 1 ∧ x = i + 1 then v4
      else f (y * w + x) := by
  simp only [Function.update_apply]
  by_cases h4 : y = j + 1 ∧ x = i + 1
  · rw [if_pos (by rw [h4.1, h4.2]), if_neg (by omega), if_neg (by omega),
      if_neg (by omega), if_pos h4]
  · rw [if_neg (fun habs =>
      h4 ⟨(index_inj w x (i+1) y (j+1) hx (by omega) habs).1,
          (index_inj w x (i+1) y (j+1) hx (by omega) habs).2⟩)]
    by_cases h3 : y = j + 1 ∧ x = i
    · rw [if_pos (by rw [h3.1, h3.2]), if_neg (by omega), if_neg (by omega),
        if_pos h3]
    · rw [if_neg (fun habs =>
        h3 ⟨(index_inj w x i y (j+1) hx (by omega) habs).1,
            (index_inj w x i y (j+1) hx (by omega) habs).2⟩)]
      by_cases h2 : y = j ∧ x = i + 1
      · rw [if_pos (by rw [h2.1, h2.2]), if_neg (by omega), if_pos h2]
      · rw [if_neg (fun habs =>
          h2 ⟨(index_inj w x (i+1) y j hx (by omega) habs).1,
              (index_inj w x (i+1) y j hx (by omega) habs).2⟩)]
        by_cases h1 : y = j ∧ x = i
        · rw [if_pos (by rw [h1.1, h1.2]), if_pos h1]
        · rw [if_neg (fun habs =>
            h1 ⟨(index_inj w x i y j hx (by omega) habs).1,
                (index_inj w x i y j hx (by omega) habs).2⟩)]
          rw [if_neg h1, if_neg h2, if_neg h3, if_neg h4]

theorem fast_row_y (rgb : List Nat) (w h j : Nat)
    (hlen : 3 * (w * h) ≤ rgb.length) (hw : w % 2 = 0) (hh : h % 2 = 0)
    (hj2 : j % 2 = 0) (hjh : j < h) :
    ∀ nB, nB ≤ w / 2 → ∀ pl x y, x < w → y < h →
      ((List.range nB).foldl (fun pl k => fastBlockStep rgb w h j pl (2 * k)) pl).y
          (y * w + x) =
        if (y = j ∨ y = j + 1) ∧ x < 2 * nB then yPix rgb w x y
        else pl.y (y * w + x) := by
  intro nB
  induction nB with
  | zero =>
    intro _ pl x y hx hy
    simp
  | succ nB ih =>
    intro hn pl x y hx hy
    rw [List.range_succ, List.foldl_append, List.foldl_cons, List.foldl_nil]
    rw [fastBlockStep_char rgb w h j (2 * nB) _ hw hh hjh hj2 (by omega) (by omega) hlen]
    dsimp only
    rw [up4_apply _ w h j (2 * nB) x y _ _ _ _ hx hy (by omega) (by omega)]
    rw [ih (by omega) pl x y hx hy]
    by_cases hc1 : y = j ∧ x = 2 * nB
    · rw [if_pos hc1, if_pos ⟨Or.inl hc1.1, by omega⟩, hc1.1, hc1.2]
    · rw [if_neg hc1]
      by_cases hc2 : y = j ∧ x = 2 * nB + 1
      · rw [if_pos hc2, if_pos ⟨Or.inl hc2.1, by omega⟩, hc2.1, hc2.2]
      · rw [if_neg hc2]
        by_cases hc3 : y = j + 1 ∧ x = 2 * nB
        · rw [if_pos hc3, if_pos ⟨Or.inr hc3.1, by omega⟩, hc3.1, hc3.2]
        · rw [if_neg hc3]
          by_cases hc4 : y = j + 1 ∧ x = 2 * nB + 1
          · rw [if_pos hc4, if_pos ⟨Or.inr hc4.1, by omega⟩, hc4.1, hc4.2]
          · rw [if_neg hc4]
            by_cases hc5 : (y = j ∨ y = j + 1) ∧ x < 2 * nB
            · rw [if_pos hc5, if_pos ⟨hc5.1, by omega⟩]
            · rw [if_neg hc5, if_neg ?_]
              rintro ⟨hyj, hxb⟩
              rcases Nat.lt_or_ge x (2 * nB) with hlt | hge
              · exact hc5 ⟨hyj, hlt⟩
              · rcases hyj with h' | h' <;> [skip; skip] <;>
                · have hx2 : x = 2 * nB ∨ x = 2 * nB + 1 := by omega
                  rcases hx2 with h'' | h''
                  · first
                    | exact hc1 ⟨h', h''⟩
                    | exact hc3 ⟨h', h''⟩
                  · first
                    | exact hc2 ⟨h', h''⟩
                    | exact hc4 ⟨h', h''⟩

theorem fast_row_uv (rgb : List Nat) (w h j : Nat)
    (hlen : 3 * (w * h) ≤ rgb.length) (hw : w % 2 = 0) (hh : h % 2 = 0)
    (hj2 : j % 2 = 0) (hjh : j < h) :
    ∀ nB, nB ≤ w / 2 → ∀ pl BJ BI, BI < w / 2 →
      (((List.range nB).foldl (fun pl k => fastBlockStep rgb w h j pl (2 * k)) pl).u
          (BJ * (w / 2) + BI) =
        if j / 2 = BJ ∧ BI < nB then uBlockMean rgb w j (2 * BI)
        else pl.u (BJ * (w / 2) + BI))
      ∧ (((List.range nB).foldl (fun pl k => fastBlockStep rgb w h j pl (2 * k)) pl).v
          (BJ * (w / 2) + BI) =
        if j / 2 = BJ ∧ BI < nB then vBlockMean rgb w j (2 * BI)
        else pl.v (BJ * (w / 2) + BI)) := by
  intro nB
  induction nB with
  | zero =>
    intro _ pl BJ BI hBI
    simp
  | succ nB ih =>
    intro hn pl BJ BI hBI
    rw [List.range_succ, List.foldl_append, List.foldl_cons, List.foldl_nil]
    rw [fastBlockStep_char rgb w h j (2 * nB) _ hw hh hjh hj2 (by omega) (by omega) hlen]
    obtain ⟨ihu, ihv⟩ := ih (by omega) pl BJ BI hBI
    have hidx : 2 * nB / 2 = nB := by omega
    have hstepu : (Function.update
        ((List.range nB).foldl (fun pl k => fastBlockStep rgb w h j pl (2 * k)) pl).u
        (j / 2 * (w / 2) + 2 * nB / 2) (uBlockMean rgb w j (2 * nB)))
          (BJ * (w / 2) + BI) =
        if j / 2 = BJ ∧ BI = nB then uBlockMean rgb w j (2 * BI)
        else ((List.range nB).foldl (fun pl k => fastBlockStep rgb w h j pl (2 * k)) pl).u
          (BJ * (w / 2) + BI) := by
      rw [Function.update_apply, hidx]
      by_cases hc : j / 2 = BJ ∧ BI = nB
      · rw [if_pos (by rw [hc.1, hc.2]), if_pos hc, hc.2]
      · rw [if_neg (fun habs =>
          hc ⟨(index_inj (w / 2) BI nB BJ (j / 2) hBI (by omega) habs).1.symm,
              (index_inj (w / 2) BI nB BJ (j / 2) hBI (by omega) habs).2⟩),
          if_neg hc]
    have hstepv : (Function.update
        ((List.range nB).foldl (fun pl k => fastBlockStep rgb w h j pl (2 * k)) pl).v
        (j / 2 * (w / 2) + 2 * nB / 2) (vBlockMean rgb w j (2 * nB)))
          (BJ * (w / 2) + BI) =
        if j / 2 = BJ ∧ BI = nB then vBlockMean rgb w j (2 * BI)
        else ((List.range nB).foldl (fun pl k => fastBlockStep rgb w h j pl (2 * k)) pl).v
          (BJ * (w / 2) + BI) := by
      rw [Function.update_apply, hidx]
      by_cases hc : j / 2 = BJ ∧ BI = nB
      · rw [if_pos (by rw [hc.1, hc.2]), if_pos hc, hc.2]
      · rw [if_neg (fun habs =>
          hc ⟨(index_inj (w / 2) BI nB BJ (j / 2) hBI (by omega) habs).1.symm,
              (index_inj (w / 2) BI nB BJ (j / 2) hBI (by omega) habs).2⟩),
          if_neg hc]
    refine ⟨?_, ?_⟩
    · show (Function.update
        ((List.range nB).foldl (fun pl k => fastBlockStep rgb w h j pl (2 * k)) pl).u
        (j / 2 * (w / 2) + 2 * nB / 2) (uBlockMean rgb w j (2 * nB)))
          (BJ * (w / 2) + BI) = _
      rw [hstepu, ihu]
      by_cases hc1 : j / 2 = BJ ∧ BI = nB
      · rw [if_pos hc1, if_pos ⟨hc1.1, by omega⟩]
      · rw [if_neg hc1]
        by_cases hc2 : j / 2 = BJ ∧ BI < nB
        · rw [if_pos hc2, if_pos ⟨hc2.1, by omega⟩]
        · rw [if_neg hc2, if_neg ?_]
          rintro ⟨ha, hb⟩
          rcases Nat.lt_or_ge BI nB with hlt | hge
          · exact hc2 ⟨ha, hlt⟩
          · exact hc1 ⟨ha, by omega⟩
    · show (Function.update
        ((List.range nB).foldl (fun pl k => fastBlockStep rgb w h j pl (2 * k)) pl).v
        (j / 2 * (w / 2) + 2 * nB / 2) (vBlockMean rgb w j (2 * nB)))
          (BJ * (w / 2) + BI) = _
      rw [hstepv, ihv]
      by_cases hc1 : j / 2 = BJ ∧ BI = nB
      · rw [if_pos hc1, if_pos ⟨hc1.1, by omega⟩]
      · rw [if_neg hc1]
        by_cases hc2 : j / 2 = BJ ∧ BI < nB
        · rw [if_pos hc2, if_pos ⟨hc2.1, by omega⟩]
        · rw [if_neg hc2, if_neg ?_]
          rintro ⟨ha, hb⟩
          rcases Nat.lt_or_ge BI nB with hlt | hge
          · exact hc2 ⟨ha, hlt⟩
          · exact hc1 ⟨ha, by omega⟩

theorem fastRowStep_as_fold (rgb : List Nat) (w h j : Nat) (hw : w % 2 = 0) :
    ∀ q : Planes, fastRowStep rgb w h q j =
      (List.range (w / 2)).foldl (fun pl k => fastBlockStep rgb w h j pl (2 * k)) q := by
  intro q
  unfold fastRowStep
  rw [stepBy2_eq, List.foldl_map, show (w + 1) / 2 = w / 2 by omega]

theorem fast_rows_y (rgb : List Nat) (w h : Nat) (hlen : 3 * (w * h) ≤ rgb.length)
    (hw : w % 2 = 0) (hh : h % 2 = 0) :
    ∀ mB, mB ≤ h / 2 → ∀ x y, x < w → y < h →
      ((List.range mB).foldl (fun pl k => fastRowStep rgb w h pl (2 * k)) Planes.init).y
          (y * w + x) =
        if y < 2 * mB then yPix rgb w x y else 0 := by
  intro mB
  induction mB with
  | zero =>
    intro _ x y hx hy
    simp [Planes.init]
  | succ mB ih =>
    intro hm x y hx hy
    rw [List.range_succ, List.foldl_append, List.foldl_cons, List.foldl_nil]
    rw [fastRowStep_as_fold rgb w h (2 * mB) hw]
    rw [fast_row_y rgb w h (2 * mB) hlen hw hh (by omega) (by omega) (w / 2)
      (le_refl _) _ x y hx hy]
    rw [ih (by omega) x y hx hy]
    by_cases hc1 : y = 2 * mB ∨ y = 2 * mB + 1
    · rw [if_pos ⟨hc1, by omega⟩, if_pos (by omega)]
    · rw [if_neg (by tauto)]
      by_cases hc2 : y < 2 * mB
      · rw [if_pos hc2, if_pos (by omega)]
      · rw [if_neg hc2, if_neg (by omega)]

theorem fast_rows_uv (rgb : List Nat) (w h : Nat) (hlen : 3 * (w * h) ≤ rgb.length)
    (hw : w % 2 = 0) (hh : h % 2 = 0) :
    ∀ mB, mB ≤ h / 2 → ∀ BJ BI, BI < w / 2 →
      (((List.range mB).foldl (fun pl k => fastRowStep rgb w h pl (2 * k)) Planes.init).u
          (BJ * (w / 2) + BI) =
        if BJ < mB then uBlockMean rgb w (2 * BJ) (2 * BI) else 0)
      ∧ (((List.range mB).foldl (fun pl k => fastRowStep rgb w h pl (2 * k)) Planes.init).v
          (BJ * (w / 2) + BI) =
        if BJ < mB then vBlockMean rgb w (2 * BJ) (2 * BI) else 0) := by
  intro mB
  induction mB with
  | zero =>
    intro _ BJ BI hBI
    simp [Planes.init]
  | succ mB ih =>
    intro hm BJ BI hBI
    rw [List.range_succ, List.foldl_append, List.foldl_cons, List.foldl_nil]
    rw [fastRowStep_as_fold rgb w h (2 * mB) hw]
    obtain ⟨hu, hv⟩ := fast_row_uv rgb w h (2 * mB) hlen hw hh (by omega) (by omega)
      (w / 2) (le_refl _) _ BJ BI hBI
    obtain ⟨ihu, ihv⟩ := ih (by omega) BJ BI hBI
    rw [hu, hv, ihu, ihv]
    have hdiv : 2 * mB / 2 = mB := by omega
    constructor
    · by_cases hc1 : mB = BJ
      · rw [if_pos ⟨by omega, by omega⟩, if_pos (by omega), hc1]
      · rw [if_neg (by omega)]
        by_cases hc2 : BJ < mB
        · rw [if_pos hc2, if_pos (by omega)]
        · rw [if_neg hc2, if_neg (by omega)]
    · by_cases hc1 : mB = BJ
      · rw [if_pos ⟨by omega, by omega⟩, if_pos (by omega), hc1]
      · rw [if_neg (by omega)]
        by_cases hc2 : BJ < mB
        · rw [if_pos hc2, if_pos (by omega)]
        · rw [if_neg hc2, if_neg (by omega)]

/-- C9, counterexample: for the 2×2 frame whose top-left pixel is pure blue
and whose other three pixels are black, the capture helper `rgb_to_yuv420`
writes `U = 240` (computed from the top-left pixel alone), while the value
demanded by the claim — the U formula applied to the block mean
(`sum >> 2`, i.e. `(0,0,63)`) — is 156.  So the cited conversion does not
always derive U and V "from the block mean". -/
theorem c9_counterexample :
    (rgb_to_yuv420 [0, 0, 255, 0, 0, 0, 0, 0, 0, 0, 0, 0] 2 2).u 0 = 240
      ∧ uBlockMean [0, 0, 255, 0, 0, 0, 0, 0, 0, 0, 0, 0] 2 0 0 = 156
      ∧ (240 : Nat) ≠ 156 := by
  decide

/-- C9, amended: for even dimensions and a full RGB frame of bytes, both
conversions write every Y sample as the clamped BT.601 luma of its pixel,
with every Y in [16, 235]; U and V are written once per 2×2 block at index
`(j/2)·(width/2) + (i/2)`, each in [0, 255]; the encoder's conversion
derives U/V from the block mean (`sum >> 2`), while the capture helper
derives them from the block's top-left pixel. -/
theorem c9_yuv_conversion (rgb : List Nat) (w h : Nat)
    (hw : w % 2 = 0) (hh : h % 2 = 0) (hlen : 3 * (w * h) ≤ rgb.length)
    (hbytes : ∀ v ∈ rgb, v ≤ 255) :
    (∀ x y, x < w → y < h →
        (rgb_to_yuv420_fast rgb w h).y (y * w + x) = yPix rgb w x y
        ∧ (rgb_to_yuv420 rgb w h).y (y * w + x) = yPix rgb w x y
        ∧ 16 ≤ yPix rgb w x y ∧ yPix rgb w x y ≤ 235)
    ∧ (∀ bj bi, bj < h / 2 → bi < w / 2 →
        (rgb_to_yuv420_fast rgb w h).u (bj * (w / 2) + bi) =
          uBlockMean rgb w (2 * bj) (2 * bi)
        ∧ (rgb_to_yuv420_fast rgb w h).v (bj * (w / 2) + bi) =
          vBlockMean rgb w (2 * bj) (2 * bi)
        ∧ (rgb_to_yuv420 rgb w h).u (bj * (w / 2) + bi) =
          uTopLeft rgb w (2 * bj) (2 * bi)
        ∧ (rgb_to_yuv420 rgb w h).v (bj * (w / 2) + bi) =
          vTopLeft rgb w (2 * bj) (2 * bi)
        ∧ uBlockMean rgb w (2 * bj) (2 * bi) ≤ 255
        ∧ vBlockMean rgb w (2 * bj) (2 * bi) ≤ 255
        ∧ uTopLeft rgb w (2 * bj) (2 * bi) ≤ 255
        ∧ vTopLeft rgb w (2 * bj) (2 * bi) ≤ 255) := by
  have hfast : rgb_to_yuv420_fast rgb w h =
      (List.range (h / 2)).foldl (fun pl k => fastRowStep rgb w h pl (2 * k))
        Planes.init := by
    unfold rgb_to_yuv420_fast
    rw [stepBy2_eq, List.foldl_map, show (h + 1) / 2 = h / 2 by omega]
  have hcap : rgb_to_yuv420 rgb w h =
      (List.range h).foldl (capRowStep rgb w h) Planes.init := rfl
  constructor
  · intro x y hx hy
    refine ⟨?_, ?_, (yPix_bounds rgb hbytes w x y).1, (yPix_bounds rgb hbytes w x y).2⟩
    · rw [hfast, fast_rows_y rgb w h hlen hw hh (h / 2) (le_refl _) x y hx hy,
        if_pos (by omega)]
    · rw [hcap, cap_rows_y rgb w h hlen h (le_refl _) x y hx hy, if_pos hy]
  · intro bj bi hbj hbi
    obtain ⟨hfu, hfv⟩ := fast_rows_uv rgb w h hlen hw hh (h / 2) (le_refl _) bj bi hbi
    obtain ⟨hcu, hcv⟩ := cap_rows_uv rgb w h hlen hw hh h (le_refl _) bj bi hbi
    refine ⟨?_, ?_, ?_, ?_, clampU8_le _, clampU8_le _, clampU8_le _, clampU8_le _⟩
    · rw [hfast, hfu, if_pos hbj]
    · rw [hfast, hfv, if_pos hbj]
    · rw [hcap, hcu, if_pos (by omega)]
    · rw [hcap, hcv, if_pos (by omega)]

/-- C9 witness: the amended theorem applied to the concrete 2×2 frame. -/
theorem c9_witness :
    ((2 : Nat) % 2 = 0)
    ∧ (∀ v ∈ [0, 0, 255, 0, 0, 0, 0, 0, 0, 0, 0, 0], v ≤ 255)
    ∧ (rgb_to_yuv420_fast [0, 0, 255, 0, 0, 0, 0, 0, 0, 0, 0, 0] 2 2).u 0 =
      uBlockMean [0, 0, 255, 0, 0, 0, 0, 0, 0, 0, 0, 0] 2 0 0 := by
  refine ⟨rfl, by decide, ?_⟩
  have h := (c9_yuv_conversion [0, 0, 255, 0, 0, 0, 0, 0, 0, 0, 0, 0] 2 2
    (by decide) (by decide) (by decide) (by decide)).2 0 0 (by decide) (by decide)
  simpa using h.1

/-! ## Claim C8: bitrate formula -/

/-- C8, counterexample: at `width = height = 65536` the `u32` product
`width * height` wraps to `0`, so the code selects `base = 1500` and returns
1500 kbps, while the claim's formula (pixels `= 65536 · 65536 > 2073600`,
hence base 5000) yields 5000 kbps. -/
theorem c8_counterexample :
    calculate_bitrate 65536 65536 30 20 = 1500
      ∧ specBitrateMath 65536 65536 30 20 = 5000
      ∧ (1500 : Int) ≠ 5000 := by
  decide

/-- C8, amended: `calculate_bitrate` equals `base · (fps/30) · max(0.3,
1 − (quality−20)/60)` truncated to an integer, where the arithmetic is
IEEE-754 single precision and `base` is selected from the pixel count
`width · height` reduced modulo `2^32` (u32 wrap-around); in particular
1920×1080 at 30 fps with quality 28 yields exactly 2600 kbps. -/
theorem c8_bitrate_formula (width height fps quality : Nat) :
    calculate_bitrate width height fps quality =
        specBitrateF32 width height fps quality
      ∧ calculate_bitrate 1920 1080 30 28 = 2600 :=
  ⟨rfl, by decide⟩

/-- C10 witness: the per-message part applied at a concrete self-announce. -/
theorem c10_witness :
    (handle_message
        { id := "a1", name := "n", role := PeerRole.teacher, ip := "ip0",
          stream_port := 5000, version := "1" }
        []
        (DiscoveryMessage.announce
          { id := "a1", name := "n", role := PeerRole.teacher, ip := "ip9",
            stream_port := 5000, version := "1" })
        "src").1 = [] := by
  exact ((c10_no_self_echo _).1 [] _ "src" rfl).1

end Screenshare
